import Mathlib

/-!
Verification development for the xubb-agents core: a shallow embedding of the
Blackboard (structured shared state), the ConditionEvaluator, the agent
lifecycle (`BaseAgent.process`) and the two-phase engine
(`AgentEngine.process_turn` / `_merge_responses`), translated from
`src/core/blackboard.py`, `src/core/conditions.py`, `src/core/agent.py` and
`src/core/engine.py`.

Python values that can live in Blackboard variables, queues, fact values,
event payloads and condition expressions are modelled by the inductive `Value`
(JSON-representable values; Python floats are modelled as exact rationals,
which is faithful for the equality and order comparisons the code performs).
Python `dict`s are modelled as association lists with unique keys and
insertion-order update semantics.  Python exceptions are modelled with
`Except Unit`; code that catches all exceptions and maps them to a default is
modelled by matching on the `Except` result.
-/

set_option maxRecDepth 8000

namespace Xubb

/-- A Python value as stored in the Blackboard: `None`, booleans, ints,
floats (as exact rationals), strings, lists and string-keyed dicts. -/
inductive Value where
  | none : Value
  | bool (b : Bool) : Value
  | int (n : Int) : Value
  | rat (q : ℚ) : Value
  | str (s : String) : Value
  | list (xs : List Value) : Value
  | dict (kvs : List (String × Value)) : Value
deriving Repr

mutual

/-- Structural equality test for `Value` (dict order-sensitive); Python's
value equality `==` is the separate `pyEq` below. -/
def beqV : Value → Value → Bool
  | .none, .none => true
  | .bool a, .bool b => a == b
  | .int a, .int b => decide (a = b)
  | .rat a, .rat b => decide (a = b)
  | .str a, .str b => decide (a = b)
  | .list xs, .list ys => beqVList xs ys
  | .dict xs, .dict ys => beqVKVs xs ys
  | _, _ => false

def beqVList : List Value → List Value → Bool
  | [], [] => true
  | x :: xs, y :: ys => beqV x y && beqVList xs ys
  | _, _ => false

def beqVKVs : List (String × Value) → List (String × Value) → Bool
  | [], [] => true
  | (k, v) :: xs, (l, w) :: ys => decide (k = l) && beqV v w && beqVKVs xs ys
  | _, _ => false

end

mutual

theorem beqV_refl : ∀ v : Value, beqV v v = true
  | .none => rfl
  | .bool b => by cases b <;> rfl
  | .int n => by simp [beqV]
  | .rat q => by simp [beqV]
  | .str s => by simp [beqV]
  | .list xs => by simpa [beqV] using beqVList_refl xs
  | .dict xs => by simpa [beqV] using beqVKVs_refl xs

theorem beqVList_refl : ∀ xs : List Value, beqVList xs xs = true
  | [] => rfl
  | x :: xs => by simp [beqVList, beqV_refl x, beqVList_refl xs]

theorem beqVKVs_refl : ∀ xs : List (String × Value), beqVKVs xs xs = true
  | [] => rfl
  | (k, v) :: xs => by simp [beqVKVs, beqV_refl v, beqVKVs_refl xs]

end

mutual

theorem eq_of_beqV : ∀ {a b : Value}, beqV a b = true → a = b
  | .none, .none, _ => rfl
  | .bool a, .bool b, h => by
      have hab : a = b := by simpa [beqV] using h
      rw [hab]
  | .int a, .int b, h => by
      have hab : a = b := by simpa [beqV] using h
      rw [hab]
  | .rat a, .rat b, h => by
      have hab : a = b := by simpa [beqV] using h
      rw [hab]
  | .str a, .str b, h => by
      have hab : a = b := by simpa [beqV] using h
      rw [hab]
  | .list xs, .list ys, h => by
      have hl : xs = ys := eq_of_beqVList (by simpa [beqV] using h)
      rw [hl]
  | .dict xs, .dict ys, h => by
      have hl : xs = ys := eq_of_beqVKVs (by simpa [beqV] using h)
      rw [hl]

theorem eq_of_beqVList : ∀ {xs ys : List Value}, beqVList xs ys = true → xs = ys
  | [], [], _ => rfl
  | x :: xs, y :: ys, h => by
      have h1 : beqV x y = true ∧ beqVList xs ys = true := by
        simpa [beqVList, Bool.and_eq_true] using h
      rw [eq_of_beqV h1.1, eq_of_beqVList h1.2]

theorem eq_of_beqVKVs : ∀ {xs ys : List (String × Value)}, beqVKVs xs ys = true → xs = ys
  | [], [], _ => rfl
  | (k, v) :: xs, (l, w) :: ys, h => by
      have h1 : k = l ∧ beqV v w = true ∧ beqVKVs xs ys = true := by
        simpa [beqVKVs, Bool.and_eq_true, and_assoc] using h
      rw [h1.1, eq_of_beqV h1.2.1, eq_of_beqVKVs h1.2.2]

end

instance : DecidableEq Value := fun a b =>
  if h : beqV a b = true then .isTrue (eq_of_beqV h)
  else .isFalse (fun he => h (he ▸ beqV_refl a))

namespace Value

/-- Python truthiness: `None`, `False`, `0`, `0.0`, `""`, `[]`, `{}` are falsy. -/
def truthy : Value → Bool
  | .none => false
  | .bool b => b
  | .int n => n != 0
  | .rat q => decide (q ≠ 0)
  | .str s => decide (s ≠ "")
  | .list xs => decide (xs ≠ [])
  | .dict kvs => decide (kvs ≠ [])

/-- Numeric view: Python treats `bool` as a subtype of `int`, and compares
ints and floats numerically. -/
def asRat? : Value → Option ℚ
  | .bool b => some (if b then 1 else 0)
  | .int n => some (n : ℚ)
  | .rat q => some q
  | _ => Option.none

end Value

/-- First-match association-list lookup (Python `dict[k]` / `dict.get(k)`);
all dicts in this development keep unique keys, maintained by `setKey`. -/
def lookupV {β : Type} (kvs : List (String × β)) (k : String) : Option β :=
  (kvs.find? (fun kv => kv.1 = k)).map (·.2)

/-- `d.get(k, default)` for a string-keyed dict. -/
def getD {β : Type} (kvs : List (String × β)) (k : String) (dflt : β) : β :=
  (lookupV kvs k).getD dflt

/-- Python `k in d` for a string-keyed dict. -/
def hasKey {β : Type} (kvs : List (String × β)) (k : String) : Bool :=
  (kvs.find? (fun kv => kv.1 = k)).isSome

/-- `d[k] = v` on a Python dict: replace the (unique) binding of `k` in
place, or append a fresh binding at the end (insertion order). -/
def setKey {β : Type} (kvs : List (String × β)) (k : String) (v : β) :
    List (String × β) :=
  if hasKey kvs k then
    kvs.map (fun kv => if kv.1 = k then (k, v) else kv)
  else kvs ++ [(k, v)]

/-- `d.update(u)`: apply each binding of `u` in order. -/
def dictUpdate {β : Type} (kvs updates : List (String × β)) : List (String × β) :=
  updates.foldl (fun acc kv => setKey acc kv.1 kv.2) kvs

mutual

/-- Python `==` on modelled values: numeric values (`bool`/`int`/`float`)
compare numerically across constructors, strings structurally, lists
pointwise, dicts by key set and pointwise value equality (order-insensitive).
Mixed non-numeric types compare unequal; `==` never raises. -/
def pyEq : Value → Value → Bool
  | .none, .none => true
  | .bool a, .bool b => a == b
  | .bool a, .int b => decide ((if a then (1 : Int) else 0) = b)
  | .bool a, .rat b => decide ((if a then (1 : ℚ) else 0) = b)
  | .int a, .bool b => decide (a = (if b then (1 : Int) else 0))
  | .int a, .int b => decide (a = b)
  | .int a, .rat b => decide ((a : ℚ) = b)
  | .rat a, .bool b => decide (a = (if b then (1 : ℚ) else 0))
  | .rat a, .int b => decide (a = ((b : ℚ)))
  | .rat a, .rat b => decide (a = b)
  | .str a, .str b => decide (a = b)
  | .list xs, .list ys => pyEqList xs ys
  | .dict xs, .dict ys => pyEqDictLe xs ys && ys.all (fun kv => hasKey xs kv.1)
  | _, _ => false

def pyEqList : List Value → List Value → Bool
  | [], [] => true
  | x :: xs, y :: ys => pyEq x y && pyEqList xs ys
  | _, _ => false

/-- Every binding of the first dict is matched by a `pyEq`-equal binding in
the second. -/
def pyEqDictLe : List (String × Value) → List (String × Value) → Bool
  | [], _ => true
  | (k, v) :: rest, d₂ =>
      (match lookupV d₂ k with
       | some w => pyEq v w
       | Option.none => false) && pyEqDictLe rest d₂

end

mutual

/-- Python `<` on modelled values: numeric cross-type compare, string
compare, lexicographic list compare; every other pair raises `TypeError`
(modelled as `Except.error`). -/
def pyLt : Value → Value → Except Unit Bool
  | .bool a, .bool b => .ok (decide ((if a then (1 : Int) else 0) < (if b then 1 else 0)))
  | .bool a, .int b => .ok (decide ((if a then (1 : Int) else 0) < b))
  | .bool a, .rat b => .ok (decide ((if a then (1 : ℚ) else 0) < b))
  | .int a, .bool b => .ok (decide (a < (if b then (1 : Int) else 0)))
  | .int a, .int b => .ok (decide (a < b))
  | .int a, .rat b => .ok (decide ((a : ℚ) < b))
  | .rat a, .bool b => .ok (decide (a < (if b then (1 : ℚ) else 0)))
  | .rat a, .int b => .ok (decide (a < ((b : ℚ))))
  | .rat a, .rat b => .ok (decide (a < b))
  | .str a, .str b => .ok (decide (a < b))
  | .list xs, .list ys => pyLtList xs ys
  | _, _ => .error ()

/-- Python list `<`: walk pairwise; at the first non-`==` pair compare with
`<` (which may raise); a strict prefix is smaller. -/
def pyLtList : List Value → List Value → Except Unit Bool
  | [], [] => .ok false
  | [], _ :: _ => .ok true
  | _ :: _, [] => .ok false
  | x :: xs, y :: ys =>
      if pyEq x y then pyLtList xs ys else pyLt x y

end

/-- Python `>` for the modelled types coincides with flipped `<`. -/
def pyGt (a b : Value) : Except Unit Bool := pyLt b a

/-- Python `<=` for the modelled types: `<` or `==`. -/
def pyLe (a b : Value) : Except Unit Bool := do
  let l ← pyLt a b
  if l then return true else return pyEq a b

/-- Python `>=` for the modelled types: flipped `<=`. -/
def pyGe (a b : Value) : Except Unit Bool := pyLe b a

/-- Substring test on character lists (Python `needle in haystack`). -/
def strContains (needle : List Char) : List Char → Bool
  | [] => needle.isEmpty
  | c :: rest => needle.isPrefixOf (c :: rest) || strContains needle rest

/-- Python `a in b`: list membership (by `==`), substring test on strings,
key membership on dicts; iteration over a non-container raises, and an
unhashable probe into a dict raises. -/
def pyIn (a b : Value) : Except Unit Bool :=
  match b with
  | .list ys => .ok (ys.any (fun y => pyEq a y))
  | .str t =>
      match a with
      | .str s => .ok (strContains s.data t.data)
      | _ => .error ()
  | .dict kvs =>
      match a with
      | .str s => .ok (hasKey kvs s)
      | .list _ => .error ()
      | .dict _ => .error ()
      | _ => .ok false
  | _ => .error ()

/-- Python `a % b` on modelled values: floored modulo on numerics,
`ZeroDivisionError` on a zero divisor, `TypeError` otherwise (string
formatting is out of scope of the conditions this development verifies). -/
def pyMod (a b : Value) : Except Unit Value :=
  match Value.asRat? a, Value.asRat? b with
  | some x, some y =>
      if y = 0 then .error ()
      else .ok (.rat (x - y * (⌊x / y⌋ : ℤ)))
  | _, _ => .error ()

/-! ## Data model (`src/core/models.py`) -/

/-- `TriggerType` — what triggered a turn or an agent run. -/
inductive TriggerType where
  | turn_based
  | keyword
  | silence
  | interval
  | event
  | force
deriving DecidableEq, Repr

/-- The string `value` of a `TriggerType` member. -/
def TriggerType.value : TriggerType → String
  | .turn_based => "turn_based"
  | .keyword => "keyword"
  | .silence => "silence"
  | .interval => "interval"
  | .event => "event"
  | .force => "force"

/-- `InsightType` — the category of an agent insight. -/
inductive InsightType where
  | suggestion
  | warning
  | opportunity
  | fact
  | praise
  | error
deriving DecidableEq, Repr

/-- `Event` — a structured transient broadcast signal (v2). -/
structure Event where
  name : String
  payload : List (String × Value)
  source_agent : String
  timestamp : ℚ
  id : Option String
deriving DecidableEq, Repr

/-- `Fact` — an extracted piece of knowledge, deduplicated by `(type, key)`. -/
structure Fact where
  type : String
  key : Option String
  value : Value
  confidence : ℚ
  source_agent : String
  timestamp : ℚ
deriving DecidableEq, Repr

/-- `AgentInsight` — a single piece of user-visible agent output. -/
structure AgentInsight where
  agent_id : String
  agent_name : String
  type : InsightType
  content : String
  confidence : ℚ
  expiry : Int
  action_label : Option String
  metadata : List (String × Value)
deriving DecidableEq, Repr

/-- `AgentResponse` — the result of one agent invocation (v1 `state_updates`
retained alongside the v2 fields; `debug_info` is excluded from semantics). -/
structure AgentResponse where
  insights : List AgentInsight := []
  state_updates : List (String × Value) := []
  data : List (String × Value) := []
  events : List Event := []
  variable_updates : List (String × Value) := []
  queue_pushes : List (String × List Value) := []
  facts : List Fact := []
  memory_updates : List (String × Value) := []
deriving DecidableEq, Repr

/-! ## Blackboard (`src/core/blackboard.py`) -/

/-- The structured shared state: transient events, session variables, FIFO
queues, deduplicated facts and per-agent private memory. -/
structure Blackboard where
  events : List Event := []
  vars : List (String × Value) := []
  queues : List (String × List Value) := []
  facts : List Fact := []
  memory : List (String × List (String × Value)) := []
deriving DecidableEq, Repr

namespace Blackboard

/-- `emit_event`: append (events are not deduplicated). -/
def emit_event (bb : Blackboard) (e : Event) : Blackboard :=
  { bb with events := bb.events ++ [e] }

/-- `clear_events`: drop all pending events. -/
def clear_events (bb : Blackboard) : Blackboard :=
  { bb with events := [] }

/-- `has_event`: is any event with this name pending? -/
def has_event (bb : Blackboard) (event_name : String) : Bool :=
  bb.events.any (fun e => e.name = event_name)

/-- `get_events_by_name`: all pending events with a given name. -/
def get_events_by_name (bb : Blackboard) (event_name : String) : List Event :=
  bb.events.filter (fun e => e.name = event_name)

/-- `count_events`: how many pending events carry this name. -/
def count_events (bb : Blackboard) (event_name : String) : Nat :=
  (bb.events.filter (fun e => e.name = event_name)).length

/-- `set_var`: write a session variable (`sys.`-prefixed keys are an
advisory engine-owned namespace, not enforced). -/
def set_var (bb : Blackboard) (key : String) (v : Value) : Blackboard :=
  { bb with vars := setKey bb.vars key v }

/-- `get_var`: read a session variable, `None` when absent. -/
def get_var (bb : Blackboard) (key : String) : Value :=
  getD bb.vars key .none

/-- `has_var`: is the variable present? -/
def has_var (bb : Blackboard) (key : String) : Bool :=
  hasKey bb.vars key

/-- `push_queue_items`: append several items to a queue, creating it if
missing. -/
def push_queue_items (bb : Blackboard) (queue_name : String) (items : List Value) :
    Blackboard :=
  { bb with queues := setKey bb.queues queue_name (getD bb.queues queue_name [] ++ items) }

/-- `push_queue`: append one item to a queue, creating it if missing. -/
def push_queue (bb : Blackboard) (queue_name : String) (item : Value) : Blackboard :=
  { bb with queues := setKey bb.queues queue_name (getD bb.queues queue_name [] ++ [item]) }

/-- `queue_length`: length of a queue (0 when missing). -/
def queue_length (bb : Blackboard) (queue_name : String) : Nat :=
  (getD bb.queues queue_name []).length

/-- `add_fact`: deduplicating insert.  With a null key the candidate is the
first existing fact of the same type; with a key, the fact matching
`(type, key)` exactly.  The new fact replaces the candidate iff its
confidence is at least the candidate's (the replacement is removed and the
new fact appended); otherwise the call is a no-op.  Without a candidate the
fact is appended. -/
def add_fact (bb : Blackboard) (fact : Fact) : Blackboard :=
  let existing : Option Fact :=
    match fact.key with
    | Option.none => bb.facts.find? (fun f => f.type = fact.type)
    | some _ => bb.facts.find? (fun f => f.type = fact.type ∧ f.key = fact.key)
  match existing with
  | some ex =>
      if ex.confidence ≤ fact.confidence then
        { bb with facts := bb.facts.erase ex ++ [fact] }
      else bb
  | Option.none => { bb with facts := bb.facts ++ [fact] }

/-- `get_fact`: first fact matching the type (and the key when given). -/
def get_fact (bb : Blackboard) (fact_type : String) (key : Option String) :
    Option Fact :=
  match key with
  | some _ => bb.facts.find? (fun f => f.type = fact_type ∧ f.key = key)
  | Option.none => bb.facts.find? (fun f => f.type = fact_type)

/-- `get_memory`: an agent's private memory ( `{}` when absent). -/
def get_memory (bb : Blackboard) (agent_id : String) : List (String × Value) :=
  getD bb.memory agent_id []

/-- `update_memory`: merge updates into an agent's memory namespace. -/
def update_memory (bb : Blackboard) (agent_id : String)
    (updates : List (String × Value)) : Blackboard :=
  { bb with memory := setKey bb.memory agent_id (dictUpdate (getD bb.memory agent_id []) updates) }

/-- `snapshot`: a deep copy; in the pure model the value itself, and phase
isolation is by construction (agents only read their snapshot). -/
def snapshot (bb : Blackboard) : Blackboard := bb

/-- `model_dump` of an `Event` (field order of the pydantic model). -/
def eventToDict (e : Event) : Value :=
  .dict [("name", .str e.name), ("payload", .dict e.payload),
         ("source_agent", .str e.source_agent), ("timestamp", .rat e.timestamp),
         ("id", match e.id with | some s => .str s | Option.none => .none)]

/-- `model_dump` of a `Fact` (field order of the pydantic model). -/
def factToDict (f : Fact) : Value :=
  .dict [("type", .str f.type),
         ("key", match f.key with | some s => .str s | Option.none => .none),
         ("value", f.value), ("confidence", .rat f.confidence),
         ("source_agent", .str f.source_agent), ("timestamp", .rat f.timestamp)]

/-- `to_dict`: serialize to a plain tree of primitives. -/
def to_dict (bb : Blackboard) : Value :=
  .dict [("events", .list (bb.events.map eventToDict)),
         ("variables", .dict bb.vars),
         ("queues", .dict (bb.queues.map (fun kv => (kv.1, Value.list kv.2)))),
         ("facts", .list (bb.facts.map factToDict)),
         ("memory", .dict (bb.memory.map (fun kv => (kv.1, Value.dict kv.2))))]

/-- Numeric decode helper: pydantic coerces `int` into a `float` field. -/
def decodeRat : Value → Except Unit ℚ
  | .rat q => .ok q
  | .int n => .ok (n : ℚ)
  | _ => .error ()

/-- Decode an optional-string field (`None` or a string). -/
def decodeOptStr : Value → Except Unit (Option String)
  | .none => .ok Option.none
  | .str s => .ok (some s)
  | _ => .error ()

/-- `Event(**e)`: validate a serialized event record. -/
def eventFromDict : Value → Except Unit Event
  | .dict kvs => do
      let name ← match lookupV kvs "name" with
                 | some (.str s) => .ok s
                 | _ => .error ()
      let payload ← match lookupV kvs "payload" with
                    | some (.dict d) => .ok d
                    | Option.none => .ok []
                    | _ => .error ()
      let src ← match lookupV kvs "source_agent" with
                | some (.str s) => .ok s
                | _ => .error ()
      let ts ← match lookupV kvs "timestamp" with
               | some v => decodeRat v
               | Option.none => .error ()
      let eid ← match lookupV kvs "id" with
                | some v => decodeOptStr v
                | Option.none => .ok Option.none
      .ok { name := name, payload := payload, source_agent := src,
            timestamp := ts, id := eid }
  | _ => .error ()

/-- `Fact(**f)`: validate a serialized fact record (confidence must lie in
`[0, 1]`, as enforced by the pydantic field constraint). -/
def factFromDict : Value → Except Unit Fact
  | .dict kvs => do
      let ty ← match lookupV kvs "type" with
               | some (.str s) => .ok s
               | _ => .error ()
      let key ← match lookupV kvs "key" with
                | some v => decodeOptStr v
                | Option.none => .ok Option.none
      let value ← match lookupV kvs "value" with
                  | some v => .ok v
                  | Option.none => .error ()
      let conf ← match lookupV kvs "confidence" with
                 | some v => decodeRat v
                 | Option.none => .ok 1
      if 0 ≤ conf ∧ conf ≤ 1 then
        let src ← match lookupV kvs "source_agent" with
                  | some (.str s) => .ok s
                  | _ => .error ()
        let ts ← match lookupV kvs "timestamp" with
                 | some v => decodeRat v
                 | Option.none => .error ()
        .ok { type := ty, key := key, value := value, confidence := conf,
              source_agent := src, timestamp := ts }
      else .error ()
  | _ => .error ()

/-- Decode the `queues` component (an object of lists). -/
def decodeQueues : Value → Except Unit (List (String × List Value))
  | .dict kvs => kvs.mapM (fun kv =>
      match kv.2 with
      | .list xs => .ok (kv.1, xs)
      | _ => .error ())
  | _ => .error ()

/-- Decode the `memory` component (an object of objects). -/
def decodeMemory : Value → Except Unit (List (String × List (String × Value)))
  | .dict kvs => kvs.mapM (fun kv =>
      match kv.2 with
      | .dict d => .ok (kv.1, d)
      | _ => .error ())
  | _ => .error ()

/-- `from_dict`: rebuild a Blackboard from its serialized form; validation
failures (as pydantic would raise) are modelled as errors. -/
def from_dict : Value → Except Unit Blackboard
  | .dict kvs => do
      let events ← match getD kvs "events" (.list []) with
                   | .list es => es.mapM eventFromDict
                   | _ => .error ()
      let vs ← match getD kvs "variables" (.dict []) with
                      | .dict d => .ok d
                      | _ => .error ()
      let queues ← decodeQueues (getD kvs "queues" (.dict []))
      let facts ← match getD kvs "facts" (.list []) with
                  | .list fs => fs.mapM factFromDict
                  | _ => .error ()
      let memory ← decodeMemory (getD kvs "memory" (.dict []))
      .ok { events := events, vars := vs, queues := queues,
            facts := facts, memory := memory }
  | _ => .error ()

end Blackboard

/-! ## ConditionEvaluator (`src/core/conditions.py`) -/

namespace ConditionEvaluator

/-- Split a string at the first dot: `key.split(".", 1)` for a key known to
contain a dot. -/
def splitOnce (s : String) : String × String :=
  let pre := s.data.takeWhile (fun c => c ≠ '.')
  let post := (s.data.dropWhile (fun c => c ≠ '.')).drop 1
  (String.mk pre, String.mk post)

/-- `_get_value`: extract `(actual, key_exists)` from the rule's source key,
checked in the order `var`, `fact`, `queue`, `memory`, `meta`.  Errors model
the exceptions the Python code can raise inside the rule barrier (probing a
dict with an unhashable key, or splitting a non-string memory key); a
hashable non-string key simply misses the string-keyed containers. -/
def get_value (rule : List (String × Value)) (bb : Blackboard)
    (meta : List (String × Value)) (agent_id : String) :
    Except Unit (Value × Bool) :=
  if hasKey rule "var" then
    match getD rule "var" .none with
    | .str key => .ok (bb.get_var key, bb.has_var key)
    | .list _ => .error ()
    | .dict _ => .error ()
    | _ => .ok (.none, false)
  else if hasKey rule "fact" then
    let fk := getD rule "fact_key" .none
    let fact : Option Fact :=
      match getD rule "fact" .none with
      | .str ft =>
          match fk with
          | .none => bb.get_fact ft Option.none
          | .str s => bb.get_fact ft (some s)
          | _ => Option.none
      | _ => Option.none
    match fact with
    | some f => .ok (f.value, true)
    | Option.none => .ok (.none, false)
  else if hasKey rule "queue" then
    match getD rule "queue" .none with
    | .str qn => .ok (.list (getD bb.queues qn []), hasKey bb.queues qn)
    | .list _ => .error ()
    | .dict _ => .error ()
    | _ => .ok (.list [], false)
  else if hasKey rule "memory" then
    match getD rule "memory" .none with
    | .str key =>
        if key.data.contains '.' then
          let (other_agent, mem_key) := splitOnce key
          let agent_mem := bb.get_memory other_agent
          .ok (getD agent_mem mem_key .none, hasKey agent_mem mem_key)
        else
          let agent_mem := bb.get_memory agent_id
          .ok (getD agent_mem key .none, hasKey agent_mem key)
    | _ => .error ()
  else if hasKey rule "meta" then
    match getD rule "meta" .none with
    | .str mk => .ok (getD meta mk .none, hasKey meta mk)
    | .list _ => .error ()
    | .dict _ => .error ()
    | _ => .ok (.none, false)
  else .ok (.none, false)

/-- The operator dispatch chain of `_compare`, before its exception barrier.
A non-string `op` matches none of the string comparisons and falls through
to the lenient unknown-operator case (`True`). -/
def compareExc (actual : Value) (op : Value) (expected : Value)
    (rule : List (String × Value)) (key_exists : Bool) : Except Unit Bool :=
  match op with
  | .str s =>
      if s = "eq" then .ok (pyEq actual expected)
      else if s = "neq" then .ok (!pyEq actual expected)
      else if s = "gt" then
        if actual = .none then .ok false else pyGt actual expected
      else if s = "gte" then
        if actual = .none then .ok false else pyGe actual expected
      else if s = "lt" then
        if actual = .none then .ok false else pyLt actual expected
      else if s = "lte" then
        if actual = .none then .ok false else pyLe actual expected
      else if s = "in" then
        if expected.truthy then pyIn actual expected else .ok false
      else if s = "not_in" then
        if expected.truthy then do
          let b ← pyIn actual expected
          .ok (!b)
        else .ok true
      else if s = "contains" then
        if actual = .none then .ok false else pyIn expected actual
      else if s = "exists" then .ok actual.truthy
      else if s = "present" then .ok key_exists
      else if s = "not_exists" then .ok (!actual.truthy)
      else if s = "not_empty" then
        if actual = .none then .ok false else .ok actual.truthy
      else if s = "empty" then
        if actual = .none then .ok true else .ok (!actual.truthy)
      else if s = "mod" then
        let result := getD rule "result" (.int 0)
        if actual = .none ∨ expected = .none then .ok false
        else do
          let m ← pyMod actual expected
          .ok (pyEq m result)
      else .ok true
  | _ => .ok true

/-- `_compare`: the dispatch chain behind an exception barrier — comparison
failures (type mismatches, zero divisors) yield `false`, never an error. -/
def compare (actual : Value) (op : Value) (expected : Value)
    (rule : List (String × Value)) (key_exists : Bool) : Bool :=
  match compareExc actual op expected rule key_exists with
  | .ok b => b
  | .error _ => false

/-- `_evaluate_rule`: evaluate one rule behind a barrier that maps every
internal failure to `false`.  A non-dict rule always fails inside the
barrier (or falls through to a missing `.get`) and yields `false`. -/
def evaluate_rule (rule : Value) (bb : Blackboard)
    (meta : List (String × Value)) (agent_id : String) : Bool :=
  match rule with
  | .dict kvs =>
      match get_value kvs bb meta agent_id with
      | .ok (actual, key_exists) =>
          let op := getD kvs "op" (.str "eq")
          let expected := getD kvs "value" .none
          compare actual op expected kvs key_exists
      | .error _ => false
  | _ => false

/-- `evaluate`: the outer entry point.  Falsy conditions (absent, `{}`)
vacuously pass; `rules` is read with `.get` and iterated; iterating a
string or a dict yields string "rules" which each evaluate to `false`
inside the rule barrier, while iterating a non-iterable `rules` value, or
calling `.get` on a truthy non-dict conditions value, raises — the outer
method has no barrier of its own. -/
def evaluate (conditions : Value) (bb : Blackboard)
    (meta : List (String × Value)) (agent_id : String) : Except Unit Bool :=
  if !conditions.truthy then .ok true
  else
    match conditions with
    | .dict kvs =>
        let mode := getD kvs "mode" (.str "all")
        let rules := getD kvs "rules" (.list [])
        if !rules.truthy then .ok true
        else
          let results? : Except Unit (List Bool) :=
            match rules with
            | .list rs => .ok (rs.map (fun r => evaluate_rule r bb meta agent_id))
            | .str s => .ok (s.data.map (fun _ => false))
            | .dict d => .ok (d.map (fun _ => false))
            | _ => .error ()
          match results? with
          | .ok results =>
              if pyEq mode (.str "all") then .ok (results.all id)
              else if pyEq mode (.str "any") then .ok (results.any id)
              else .ok true
          | .error e => .error e
    | _ => .error ()

end ConditionEvaluator

/-! ## Agent contract (`src/core/agent.py`, `src/core/models.py`) -/

/-- `AgentConfigOverride` — per-agent overrides a Role may carry on the
context (`cooldown_modifier` is documented to floor the effective cooldown
at 5 seconds). -/
structure AgentConfigOverride where
  cooldown_modifier : Option Int := Option.none
  context_turns_modifier : Option Int := Option.none
  instructions_append : Option String := Option.none
deriving DecidableEq, Repr

/-- `AgentContext` — the read view passed to each agent invocation.  Fields
the embedded claims never touch (`recent_segments`, `rag_docs`,
`language_directive`, `user_context`) are omitted. -/
structure AgentContext where
  session_id : String
  shared_state : List (String × Value) := []
  trigger_type : TriggerType := .turn_based
  trigger_metadata : List (String × Value) := []
  blackboard : Option Blackboard := Option.none
  turn_count : Int := 0
  phase : Int := 1
  agent_config_overrides : List (String × AgentConfigOverride) := []

/-- `AgentConfig` — immutable per-registration configuration.  Transparent
fields the engine never interprets (`model`, `output_format`,
`trigger_interval`, `silence_threshold`) are omitted. -/
structure AgentConfig where
  name : String
  id : String
  cooldown : Int := 10
  trigger_types : List TriggerType := [.turn_based]
  trigger_keywords : List String := []
  priority : Int := 0
  trigger_conditions : Value := .none
  subscribed_events : List String := []

/-- `BaseAgent` — configuration, runtime state, and the subclass `evaluate`
(arbitrary code that may raise, modelled as an `Except`-valued function). -/
structure BaseAgent where
  config : AgentConfig
  last_run_time : Int := 0
  evaluate : AgentContext → Except Unit (Option AgentResponse)

/-- The error response `BaseAgent.process` builds when `evaluate` raises:
a single `error`-typed insight naming the agent (via `create_insight`,
which stamps the agent's id and name). -/
def error_response (cfg : AgentConfig) : AgentResponse :=
  { insights := [{ agent_id := cfg.id, agent_name := cfg.name,
                   type := .error,
                   content := "Agent " ++ cfg.name ++ " encountered an error",
                   confidence := 1, expiry := 15,
                   action_label := Option.none, metadata := [] }] }

/-- `BaseAgent.process`: the lifecycle around `evaluate`.
1. trigger-type check (no `force` special case in the code);
2. cooldown check against `config.cooldown` (per-turn overrides are not
   consulted);
3. run `evaluate`: on success update `last_run_time` and return the
   response (possibly `None`); on a raise return the error-insight response
   without touching `last_run_time`.  Callback dispatch is observability
   only and is not modelled. -/
def BaseAgent.process (agent : BaseAgent) (context : AgentContext) (now : Int) :
    Option AgentResponse × BaseAgent :=
  if context.trigger_type ∉ agent.config.trigger_types then (Option.none, agent)
  else if now - agent.last_run_time < agent.config.cooldown then
    (Option.none, agent)
  else
    match agent.evaluate context with
    | .ok r => (r, { agent with last_run_time := now })
    | .error _ => (some (error_response agent.config), agent)

/-! ## Engine (`src/core/engine.py`) -/

namespace AgentEngine

/-- `self._agent_index.get(agent_id, 0)`: the index recorded at
registration; a re-registered id keeps its last index. -/
def agentIndex (agents : List BaseAgent) (aid : String) : Nat :=
  match (agents.enum.filter (fun p => p.2.config.id = aid)).getLast? with
  | some p => p.1
  | Option.none => 0

/-- `_is_eligible`: allow-list, trigger-type and trigger-conditions checks,
in that order, returning `(eligible, skip_reason)`.  A raise inside
condition evaluation propagates (the evaluator's barrier is per rule). -/
def is_eligible (agent : BaseAgent) (bb : Blackboard)
    (allowed : Option (List String)) (trigger_type : TriggerType)
    (meta : List (String × Value)) : Except Unit (Bool × String) :=
  match allowed with
  | some ids =>
      if agent.config.id ∉ ids then .ok (false, "not_in_allow_list")
      else is_eligible_rest agent bb trigger_type meta
  | Option.none => is_eligible_rest agent bb trigger_type meta
where
  is_eligible_rest (agent : BaseAgent) (bb : Blackboard)
      (trigger_type : TriggerType) (meta : List (String × Value)) :
      Except Unit (Bool × String) :=
    if trigger_type ∉ agent.config.trigger_types then
      .ok (false, "trigger_type_mismatch")
    else if agent.config.trigger_conditions.truthy then do
      let ok ← ConditionEvaluator.evaluate agent.config.trigger_conditions bb
                 meta agent.config.id
      if !ok then .ok (false, "conditions_not_met") else .ok (true, "")
    else .ok (true, "")

/-- `_get_eligible_agents`: indices (registration order) of the agents that
pass `_is_eligible`; skipped agents only trigger observer callbacks. -/
def selectEligible (agents : List BaseAgent) (bb : Blackboard)
    (allowed : Option (List String)) (trigger_type : TriggerType)
    (meta : List (String × Value)) : Except Unit (List Nat) := do
  let flags ← agents.mapM (fun a => is_eligible a bb allowed trigger_type meta)
  .ok ((flags.enum.filter (fun p => p.2.1)).map (·.1))

/-- `_is_eligible_for_phase2`: allow-list and trigger-conditions only — no
trigger-type check (subscription implies eligibility at selection time). -/
def is_eligible_for_phase2 (agent : BaseAgent) (bb : Blackboard)
    (allowed : Option (List String)) (meta : List (String × Value)) :
    Except Unit Bool :=
  match allowed with
  | some ids =>
      if agent.config.id ∉ ids then .ok false
      else phase2_conditions agent bb meta
  | Option.none => phase2_conditions agent bb meta
where
  phase2_conditions (agent : BaseAgent) (bb : Blackboard)
      (meta : List (String × Value)) : Except Unit Bool :=
    if agent.config.trigger_conditions.truthy then do
      let ok ← ConditionEvaluator.evaluate agent.config.trigger_conditions bb
                 meta agent.config.id
      .ok ok
    else .ok true

/-- `get_event_subscribers`: agents (in registration order) subscribed to
any of the given event names. -/
def subscriberIdxs (agents : List BaseAgent) (event_names : List String) :
    List Nat :=
  ((agents.enum.filter (fun p =>
      event_names.any (fun n => p.2.config.subscribed_events.contains n))).map (·.1))

/-- The decoration `_merge_responses` computes per response:
`(priority, registration index, agent_id or "unknown", response)`.  The
emitting agent is identified solely by the `agent_id` of the first insight;
a response without insights (or with an unregistered id) keeps the defaults
`(0, 0)`. -/
def decorate (agents : List BaseAgent) (resp : AgentResponse) :
    Int × Nat × String × AgentResponse :=
  let aid? : Option String :=
    match resp.insights with
    | i :: _ => some i.agent_id
    | [] => Option.none
  let pr : Int × Nat :=
    match aid? with
    | some aid =>
        match agents.find? (fun a => a.config.id = aid) with
        | some a => (a.config.priority, agentIndex agents aid)
        | Option.none => (0, 0)
    | Option.none => (0, 0)
  let label :=
    match aid? with
    | some aid => if aid = "" then "unknown" else aid
    | Option.none => "unknown"
  (pr.1, pr.2, label, resp)

/-- The sort key order of `_merge_responses`: ascending priority, then
ascending registration index (Python tuple comparison on `(x[0], x[1])`). -/
def mergeLe (a b : Int × Nat × String × AgentResponse) : Prop :=
  a.1 < b.1 ∨ (a.1 = b.1 ∧ a.2.1 ≤ b.2.1)

instance : DecidableRel mergeLe := fun a b => by
  unfold mergeLe
  infer_instance

instance : IsTotal (Int × Nat × String × AgentResponse) mergeLe where
  total a b := by
    unfold mergeLe
    omega

instance : IsTrans (Int × Nat × String × AgentResponse) mergeLe where
  trans a b c hab hbc := by
    unfold mergeLe at hab hbc ⊢
    omega

/-- Merging one `data` sidecar binding: disjoint keys are copied,
list-valued conflicts concatenated, otherwise last writer wins. -/
def mergeDataKV (acc : List (String × Value)) (kv : String × Value) :
    List (String × Value) :=
  match lookupV acc kv.1 with
  | Option.none => setKey acc kv.1 kv.2
  | some (.list old) =>
      match kv.2 with
      | .list vs => setKey acc kv.1 (.list (old ++ vs))
      | _ => setKey acc kv.1 kv.2
  | some _ => setKey acc kv.1 kv.2

/-- One step of the v1 `state_updates` compatibility loop: a key matching
`memory_<agent_id>` with a dict value is routed to that agent's Blackboard
memory (and recorded nowhere else; a non-dict value under such a key is
dropped entirely), every other key is written as a variable. -/
def applyStateKV (p : Blackboard × AgentResponse) (kv : String × Value) :
    Blackboard × AgentResponse :=
  if kv.1.startsWith "memory_" then
    let mem_agent_id := kv.1.replace "memory_" ""
    match kv.2 with
    | .dict d => (p.1.update_memory mem_agent_id d, p.2)
    | _ => p
  else
    (p.1.set_var kv.1 kv.2,
     { p.2 with variable_updates := setKey p.2.variable_updates kv.1 kv.2 })

/-- The body of the `_merge_responses` apply loop for one decorated
response: extend insights and data, apply variable updates, queue pushes,
facts and memory updates to the live Blackboard and mirror them in the
aggregate; route v1 `state_updates` when `variable_updates` is empty. -/
def applyResponse (st : Blackboard × AgentResponse)
    (entry : Int × Nat × String × AgentResponse) :
    Blackboard × AgentResponse :=
  let bb := st.1
  let fin := st.2
  let agent_id := entry.2.2.1
  let resp := entry.2.2.2
  let fin := { fin with insights := fin.insights ++ resp.insights }
  let fin := { fin with data := resp.data.foldl mergeDataKV fin.data }
  let bb := resp.variable_updates.foldl (fun b kv => b.set_var kv.1 kv.2) bb
  let vu := resp.variable_updates.foldl (fun acc kv => setKey acc kv.1 kv.2)
    fin.variable_updates
  let fin := { fin with variable_updates := vu }
  let bb := resp.queue_pushes.foldl (fun b kv => b.push_queue_items kv.1 kv.2) bb
  let qp := resp.queue_pushes.foldl (fun acc kv => setKey acc kv.1 (getD acc kv.1 [] ++ kv.2))
    fin.queue_pushes
  let fin := { fin with queue_pushes := qp }
  let bb := resp.facts.foldl Blackboard.add_fact bb
  let fin := { fin with facts := fin.facts ++ resp.facts }
  -- the decorated agent_id is never the empty string, so the Python guard
  -- `resp.memory_updates and agent_id` reduces to the updates being nonempty
  let bb := if resp.memory_updates ≠ [] then
              bb.update_memory agent_id resp.memory_updates
            else bb
  let fin := if resp.memory_updates ≠ [] then
               { fin with memory_updates := dictUpdate fin.memory_updates resp.memory_updates }
             else fin
  if resp.state_updates ≠ [] ∧ resp.variable_updates = [] then
    resp.state_updates.foldl applyStateKV (bb, fin)
  else (bb, fin)

/-- `_merge_responses`: decorate, sort stably by `(priority, index)`
ascending (higher priority writes last and wins), then apply in order. -/
def merge_responses (agents : List BaseAgent) (responses : List AgentResponse)
    (bb : Blackboard) (fin : AgentResponse) : Blackboard × AgentResponse :=
  let decorated := responses.map (decorate agents)
  let sorted := List.insertionSort mergeLe decorated
  sorted.foldl applyResponse (bb, fin)

/-- `_run_phase`: run the selected agents (by registry position, in order —
`asyncio.gather` preserves task order) against one shared snapshot context;
failed agents are dropped (`_run_agent_safe` returns `None`, and in the
model `process` already absorbs `evaluate` raises).  Returns the collected
responses and the updated agent states. -/
def run_phase (agents : List BaseAgent) (selected : List Nat)
    (phase_context : AgentContext) (now : Int) :
    List AgentResponse × List BaseAgent :=
  selected.foldl
    (fun (st : List AgentResponse × List BaseAgent) i =>
      match st.2[i]? with
      | some ag =>
          let pr := ag.process phase_context now
          (st.1 ++ pr.1.toList, st.2.set i pr.2)
      | Option.none => st)
    ([], agents)

/-- The execution metadata dict built at the top of `process_turn` (with the
phase entry updated before each phase). -/
def buildMeta (turn_count : Int) (trigger_type : TriggerType) (phase : Int)
    (session_id : String) : List (String × Value) :=
  [("turn_count", .int turn_count), ("trigger_type", .str trigger_type.value),
   ("phase", .int phase), ("session_id", .str session_id)]

/-- The fresh `AgentContext` `_run_phase` hands to agents: the snapshot plus
the turn's trigger data.  Fields the constructor call does not list fall
back to their defaults — in particular `agent_config_overrides` is dropped. -/
def phaseContext (context : AgentContext) (shared : List (String × Value))
    (snapshot : Blackboard) (phase : Int) : AgentContext :=
  { session_id := context.session_id
    shared_state := shared
    trigger_type := context.trigger_type
    trigger_metadata := context.trigger_metadata
    blackboard := some snapshot
    turn_count := context.turn_count
    phase := phase }

/-- The full result of one turn: the aggregate response, the live Blackboard
(which Python mutates through `context.blackboard`), and the agents with
their updated `last_run_time` state. -/
structure TurnResult where
  response : AgentResponse
  blackboard : Blackboard
  agents : List BaseAgent

/-- `process_turn`: stamp `sys.*` variables and sync the legacy
`shared_state` view, select and run Phase 1 against a snapshot, merge by
ascending `(priority, registration index)`, emit the collected events,
select Phase-2 subscribers (allow-list and conditions only) against the
post-merge Blackboard, run and merge Phase 2, record but do not dispatch
Phase-2 events, clear Blackboard events and backfill v1 `state_updates`.
`now` stands for `time.time()`, modelled as a single integral timestamp for
the whole turn (intra-turn elapsed wall time is treated as zero); an uncaught
raise from condition evaluation surfaces as an error.  Callbacks and logging
are not modelled. -/
def process_turn (engine_agents : List BaseAgent) (max_phases : Int)
    (context : AgentContext) (allowed_agent_ids : Option (List String))
    (trigger_type : TriggerType) (trigger_metadata : List (String × Value))
    (now : Int) : Except Unit TurnResult := do
  let context := { context with trigger_type := trigger_type,
                                trigger_metadata := trigger_metadata }
  let bb := (context.blackboard.getD {})
  let bb := bb.set_var "sys.turn_count" (.int context.turn_count)
  let bb := bb.set_var "sys.session_id" (.str context.session_id)
  let bb := bb.set_var "sys.trigger_type" (.str trigger_type.value)
  let shared := dictUpdate context.shared_state bb.vars
  let context := { context with shared_state := shared, blackboard := some bb }
  -- Phase 1
  let meta1 := buildMeta context.turn_count trigger_type 1 context.session_id
  let phase1 ← selectEligible engine_agents bb allowed_agent_ids trigger_type meta1
  let step1 :
      Blackboard × AgentResponse × List Event × List BaseAgent :=
    if phase1 ≠ [] then
      let ctx1 := phaseContext context shared bb.snapshot 1
      let ran := run_phase engine_agents phase1 ctx1 now
      let merged := merge_responses ran.2 ran.1 bb {}
      let evts := ran.1.flatMap (·.events)
      (evts.foldl Blackboard.emit_event merged.1, merged.2, evts, ran.2)
    else (bb, {}, [], engine_agents)
  let bb := step1.1
  let fin := step1.2.1
  let all_events := step1.2.2.1
  let agents := step1.2.2.2
  -- Phase 2 (event subscribers), entered only if Phase 1 emitted events
  let step2 :
      Except Unit (Blackboard × AgentResponse × List Event × List BaseAgent) :=
    if all_events ≠ [] ∧ max_phases ≥ 2 then do
      let meta2 := buildMeta context.turn_count trigger_type 2 context.session_id
      let event_names := (all_events.map (·.name)).dedup
      let subs := subscriberIdxs agents event_names
      let subs ← subs.filterM (fun i =>
        match agents[i]? with
        | some a => is_eligible_for_phase2 a bb allowed_agent_ids meta2
        | Option.none => .ok false)
      if subs ≠ [] then
        let ctx2 := phaseContext context shared bb.snapshot 2
        let ran := run_phase agents subs ctx2 now
        let merged := merge_responses ran.2 ran.1 bb fin
        let phase2_events := ran.1.flatMap (·.events)
        .ok (merged.1, merged.2, all_events ++ phase2_events, ran.2)
      else .ok (bb, fin, all_events, agents)
    else .ok (bb, fin, all_events, agents)
  let st ← step2
  let bb := st.1.clear_events
  let fin := st.2.1
  let all_events := st.2.2.1
  let agents := st.2.2.2
  let fin := { fin with events := all_events }
  let fin :=
    if fin.variable_updates ≠ [] then
      { fin with state_updates := dictUpdate fin.state_updates fin.variable_updates }
    else fin
  .ok { response := fin, blackboard := bb, agents := agents }

end AgentEngine

/-! ## Supporting lemmas about dict updates, sorting and the merge fold -/

open AgentEngine

theorem find?_map_set {β : Type} (k x : String) (v : β) (kvs : List (String × β)) :
    List.find? (fun kv => kv.1 = x) (kvs.map (fun kv => if kv.1 = k then (k, v) else kv)) =
      if x = k then (kvs.find? (fun kv => kv.1 = k)).map (fun _ => (k, v))
      else kvs.find? (fun kv => kv.1 = x) := by
  induction kvs with
  | nil => by_cases hx : x = k <;> simp [hx]
  | cons a rest ih =>
      by_cases hak : a.1 = k <;> by_cases hx : x = k <;> by_cases hax : a.1 = x <;>
        simp_all [List.find?]

theorem lookupV_setKey {β : Type} (kvs : List (String × β)) (k x : String) (v : β) :
    lookupV (setKey kvs k v) x = if x = k then some v else lookupV kvs x := by
  unfold setKey lookupV
  by_cases hk : hasKey kvs k
  · rw [if_pos hk, find?_map_set]
    by_cases hx : x = k
    · rw [if_pos hx, if_pos hx]
      unfold hasKey at hk
      cases hfind : kvs.find? (fun kv => kv.1 = k) with
      | none => rw [hfind] at hk; simp at hk
      | some p => simp [hfind]
    · rw [if_neg hx, if_neg hx]
  · rw [if_neg hk, List.find?_append]
    by_cases hx : x = k
    · subst hx
      have hnone : kvs.find? (fun kv => kv.1 = x) = Option.none := by
        unfold hasKey at hk
        exact Option.not_isSome_iff_eq_none.mp (by simpa using hk)
      simp [hnone, List.find?]
    · cases hfind : kvs.find? (fun kv => kv.1 = x) with
      | none =>
          have hkx : ¬ k = x := fun h => hx h.symm
          simp [hfind, List.find?, hkx, hx]
      | some p => simp [hfind, hx]

theorem lookupV_foldl_setKey {β : Type} (kvs : List (String × β)) :
    ∀ (acc : List (String × β)) (x : String),
      lookupV (kvs.foldl (fun a p => setKey a p.1 p.2) acc) x =
        match kvs.reverse.find? (fun p => p.1 = x) with
        | some p => some p.2
        | Option.none => lookupV acc x := by
  induction kvs using List.reverseRecOn with
  | nil => intro acc x; simp
  | append_singleton kvs p ih =>
      intro acc x
      rw [List.foldl_append]
      simp only [List.foldl_cons, List.foldl_nil]
      rw [lookupV_setKey]
      rw [List.reverse_append]
      simp only [List.reverse_cons, List.reverse_nil, List.nil_append,
        List.singleton_append, List.find?]
      by_cases hx : x = p.1
      · rw [if_pos hx]
        rw [show (decide (p.1 = x)) = true from by simpa using hx.symm]
      · rw [if_neg hx]
        rw [show (decide (p.1 = x)) = false from by simpa using fun h => hx h.symm]
        exact ih acc x

theorem find?_reverse_of_nodup_keys {β : Type} (x : String) :
    ∀ kvs : List (String × β), (kvs.map Prod.fst).Nodup →
      kvs.reverse.find? (fun p => p.1 = x) = kvs.find? (fun p => p.1 = x)
  | [], _ => rfl
  | p :: rest, h => by
      have hnd : (rest.map Prod.fst).Nodup := (List.nodup_cons.mp (by simpa using h)).2
      have hnotin : p.1 ∉ rest.map Prod.fst := (List.nodup_cons.mp (by simpa using h)).1
      rw [List.reverse_cons, List.find?_append, find?_reverse_of_nodup_keys x rest hnd]
      by_cases hpx : p.1 = x
      · have hnone : rest.find? (fun q => q.1 = x) = Option.none := by
          rw [List.find?_eq_none]
          intro q hq hqx
          exact hnotin (by
            rw [hpx]
            exact List.mem_map.mpr ⟨q, hq, by simpa using hqx⟩)
        simp [hnone, List.find?, hpx]
      · cases hfind : rest.find? (fun q => q.1 = x) with
        | none => simp [hfind, List.find?, hpx]
        | some q => simp [hfind, List.find?, hpx]

/-- The last binding a dict-update loop writes for key `x`. -/
def lastBinding {β : Type} (kvs : List (String × β)) (x : String) : Option β :=
  (kvs.reverse.find? (fun p => p.1 = x)).map (·.2)

theorem add_fact_eq_withFacts (bb : Blackboard) (f : Fact) :
    bb.add_fact f = { bb with facts := (bb.add_fact f).facts } := by
  unfold Blackboard.add_fact
  cases f.key <;> dsimp only <;> (cases hfind : List.find? _ bb.facts) <;> dsimp only <;>
    first
      | rfl
      | (split <;> rfl)

theorem foldl_add_fact_eq_withFacts (fs : List Fact) :
    ∀ bb : Blackboard, fs.foldl Blackboard.add_fact bb =
      { bb with facts := (fs.foldl Blackboard.add_fact bb).facts } := by
  induction fs with
  | nil => intro bb; rfl
  | cons f fs ih =>
      intro bb
      rw [List.foldl_cons, ih (bb.add_fact f), add_fact_eq_withFacts bb f]

theorem foldl_set_var_eq (kvs : List (String × Value)) :
    ∀ bb : Blackboard, kvs.foldl (fun b kv => b.set_var kv.1 kv.2) bb =
      { bb with vars := kvs.foldl (fun a kv => setKey a kv.1 kv.2) bb.vars } := by
  induction kvs with
  | nil => intro bb; rfl
  | cons kv kvs ih =>
      intro bb
      rw [List.foldl_cons, ih, List.foldl_cons]
      rfl

theorem foldl_push_queue_eq (kvs : List (String × List Value)) :
    ∀ bb : Blackboard, kvs.foldl (fun b kv => b.push_queue_items kv.1 kv.2) bb =
      { bb with queues :=
        kvs.foldl (fun a kv => setKey a kv.1 (getD a kv.1 [] ++ kv.2)) bb.queues } := by
  induction kvs with
  | nil => intro bb; rfl
  | cons kv kvs ih =>
      intro bb
      rw [List.foldl_cons, ih, List.foldl_cons]
      rfl

theorem mergeLe_refl (a : Int × Nat × String × AgentResponse) : mergeLe a a :=
  Or.inr ⟨rfl, le_refl _⟩

instance : IsRefl (Int × Nat × String × AgentResponse) mergeLe :=
  ⟨mergeLe_refl⟩

theorem sorted_rel_getLast {α : Type} {r : α → α → Prop} [IsTrans α r] :
    ∀ {l : List α}, l.Sorted r → ∀ (h : l ≠ []) (x), x ∈ l →
      x = l.getLast h ∨ r x (l.getLast h) := by
  intro l
  induction l with
  | nil => intro _ h; exact absurd rfl h
  | cons a t ih =>
      intro hs h x hx
      cases t with
      | nil =>
          simp only [List.mem_singleton] at hx
          exact Or.inl (by simp [hx])
      | cons b t2 =>
          have hlast : (a :: b :: t2).getLast h = (b :: t2).getLast (by simp) :=
            List.getLast_cons _
          rcases List.mem_cons.mp hx with hxa | hxbt
          · subst hxa
            right
            rw [hlast]
            exact List.rel_of_sorted_cons hs _ (List.getLast_mem _)
          · have := ih hs.of_cons (by simp) x hxbt
            rw [hlast]
            exact this

theorem foldl_add_fact_vars (fs : List Fact) (bb : Blackboard) :
    (fs.foldl Blackboard.add_fact bb).vars = bb.vars := by
  conv_lhs => rw [foldl_add_fact_eq_withFacts]

theorem foldl_add_fact_queues (fs : List Fact) (bb : Blackboard) :
    (fs.foldl Blackboard.add_fact bb).queues = bb.queues := by
  conv_lhs => rw [foldl_add_fact_eq_withFacts]

theorem foldl_add_fact_memory (fs : List Fact) (bb : Blackboard) :
    (fs.foldl Blackboard.add_fact bb).memory = bb.memory := by
  conv_lhs => rw [foldl_add_fact_eq_withFacts]

theorem update_memory_vars (bb : Blackboard) (a : String)
    (u : List (String × Value)) : (bb.update_memory a u).vars = bb.vars := rfl

theorem foldl_push_queue_vars (kvs : List (String × List Value)) (bb : Blackboard) :
    (kvs.foldl (fun b kv => b.push_queue_items kv.1 kv.2) bb).vars = bb.vars := by
  conv_lhs => rw [foldl_push_queue_eq]

theorem applyResponse_fst_vars (st : Blackboard × AgentResponse)
    (e : Int × Nat × String × AgentResponse)
    (hvu : e.2.2.2.variable_updates ≠ []) :
    (applyResponse st e).1.vars =
      e.2.2.2.variable_updates.foldl (fun a kv => setKey a kv.1 kv.2) st.1.vars := by
  obtain ⟨bb, fin⟩ := st
  obtain ⟨p, i, lab, resp⟩ := e
  simp only at hvu
  have hstate : ¬ (resp.state_updates ≠ [] ∧ resp.variable_updates = []) :=
    fun hcontra => hvu hcontra.2
  simp only [applyResponse, if_neg hstate]
  by_cases hm : resp.memory_updates = []
  · simp only [hm, ne_eq, not_true_eq_false, if_false]
    rw [foldl_add_fact_vars, foldl_push_queue_vars, foldl_set_var_eq]
  · simp only [hm, ne_eq, not_false_eq_true, if_true]
    rw [update_memory_vars, foldl_add_fact_vars, foldl_push_queue_vars,
      foldl_set_var_eq]

theorem applyResponse_snd_vu (st : Blackboard × AgentResponse)
    (e : Int × Nat × String × AgentResponse)
    (hvu : e.2.2.2.variable_updates ≠ []) :
    (applyResponse st e).2.variable_updates =
      e.2.2.2.variable_updates.foldl (fun a kv => setKey a kv.1 kv.2)
        st.2.variable_updates := by
  obtain ⟨bb, fin⟩ := st
  obtain ⟨p, i, lab, resp⟩ := e
  simp only at hvu
  have hstate : ¬ (resp.state_updates ≠ [] ∧ resp.variable_updates = []) :=
    fun hcontra => hvu hcontra.2
  simp only [applyResponse, if_neg hstate]
  by_cases hm : resp.memory_updates = [] <;> simp [hm]

theorem foldApply_getVar_last (pre : List (Int × Nat × String × AgentResponse))
    (e : Int × Nat × String × AgentResponse) (st : Blackboard × AgentResponse)
    (v : String) (w : Value)
    (hw : lastBinding e.2.2.2.variable_updates v = some w) :
    ((pre ++ [e]).foldl applyResponse st).1.get_var v = w ∧
    lookupV (((pre ++ [e]).foldl applyResponse st).2.variable_updates) v = some w := by
  have hvu : e.2.2.2.variable_updates ≠ [] := by
    intro hnil
    rw [hnil] at hw
    simp [lastBinding] at hw
  rw [List.foldl_append, List.foldl_cons, List.foldl_nil]
  have hfind : ∃ pp, e.2.2.2.variable_updates.reverse.find? (fun pp => pp.1 = v) =
      some pp ∧ pp.2 = w := by
    unfold lastBinding at hw
    cases hf : e.2.2.2.variable_updates.reverse.find? (fun pp => pp.1 = v) with
    | none => rw [hf] at hw; simp at hw
    | some pp =>
        rw [hf] at hw
        exact ⟨pp, rfl, by simpa using hw⟩
  obtain ⟨pp, hpp, hpw⟩ := hfind
  constructor
  · unfold Blackboard.get_var getD
    rw [applyResponse_fst_vars _ e hvu, lookupV_foldl_setKey, hpp]
    simp [hpw]
  · rw [applyResponse_snd_vu _ e hvu, lookupV_foldl_setKey, hpp]
    simp [hpw]

theorem orderedInsert_pos {α : Type} (r : α → α → Prop) [DecidableRel r] (x : α) :
    ∀ l : List α, ∃ A B, List.orderedInsert r x l = A ++ x :: B ∧ l = A ++ B
  | [] => ⟨[], [], rfl, rfl⟩
  | b :: t => by
      by_cases h : r x b
      · exact ⟨[], b :: t, by simp [List.orderedInsert, h], rfl⟩
      · obtain ⟨A, B, h1, h2⟩ := orderedInsert_pos r x t
        exact ⟨b :: A, B, by simp [List.orderedInsert, h, h1], by simp [h2]⟩

theorem orderedInsert_mid {α : Type} (r : α → α → Prop) [DecidableRel r]
    [IsTrans α r] (x e : α) :
    ∀ (A B : List α), List.Sorted r (A ++ e :: B) →
      ∃ A2 B2, List.orderedInsert r x (A ++ e :: B) = A2 ++ e :: B2 ∧
               List.orderedInsert r x (A ++ B) = A2 ++ B2
  | [], B, hs => by
      by_cases hxe : r x e
      · refine ⟨[x], B, by simp [List.orderedInsert, hxe], ?_⟩
        cases B with
        | nil => simp [List.orderedInsert]
        | cons b t =>
            have hs' : List.Sorted r (e :: b :: t) := hs
            have heb : r e b := List.rel_of_sorted_cons hs' b (by simp)
            have hxb : r x b := IsTrans.trans _ _ _ hxe heb
            simp [List.orderedInsert, hxb]
      · exact ⟨[], List.orderedInsert r x B,
          by simp [List.orderedInsert, hxe], by simp⟩
  | a :: A, B, hs => by
      by_cases hxa : r x a
      · exact ⟨x :: a :: A, B,
          by simp [List.orderedInsert, hxa], by simp [List.orderedInsert, hxa]⟩
      · obtain ⟨A2, B2, h1, h2⟩ := orderedInsert_mid r x e A B
          (by simpa using List.Sorted.of_cons (by simpa using hs))
        exact ⟨a :: A2, B2, by simp [List.orderedInsert, hxa, h1],
          by simp [List.orderedInsert, hxa, h2]⟩

theorem insertionSort_extract {α : Type} (r : α → α → Prop) [DecidableRel r]
    [IsTotal α r] [IsTrans α r] (e : α) :
    ∀ (l₁ l₂ : List α), ∃ A B,
      List.insertionSort r (l₁ ++ e :: l₂) = A ++ e :: B ∧
      List.insertionSort r (l₁ ++ l₂) = A ++ B
  | [], l₂ => by
      obtain ⟨A, B, h1, h2⟩ := orderedInsert_pos r e (List.insertionSort r l₂)
      exact ⟨A, B, by simpa [List.insertionSort] using h1, by simpa using h2⟩
  | a :: l₁, l₂ => by
      obtain ⟨A, B, h1, h2⟩ := insertionSort_extract r e l₁ l₂
      have hsAB : List.Sorted r (A ++ e :: B) := by
        rw [← h1]
        exact List.sorted_insertionSort r _
      obtain ⟨A2, B2, g1, g2⟩ := orderedInsert_mid r a e A B hsAB
      refine ⟨A2, B2, ?_, ?_⟩
      · simpa [List.insertionSort, h1] using g1
      · simpa [List.insertionSort, h2] using g2

/-- Proof infrastructure: the Blackboard component of one `applyStateKV`
step. -/
def bbStateStep (b : Blackboard) (kv : String × Value) : Blackboard :=
  if kv.1.startsWith "memory_" then
    match kv.2 with
    | .dict d => b.update_memory (kv.1.replace "memory_" "") d
    | _ => b
  else b.set_var kv.1 kv.2

/-- Proof infrastructure: the aggregate-response component of one
`applyStateKV` step. -/
def finStateStep (r : AgentResponse) (kv : String × Value) : AgentResponse :=
  if kv.1.startsWith "memory_" then
    (match kv.2 with
     | .dict _ => r
     | _ => r)
  else { r with variable_updates := setKey r.variable_updates kv.1 kv.2 }

theorem applyStateKV_pair (p : Blackboard × AgentResponse) (kv : String × Value) :
    applyStateKV p kv = (bbStateStep p.1 kv, finStateStep p.2 kv) := by
  unfold applyStateKV bbStateStep finStateStep
  by_cases h : kv.1.startsWith "memory_" <;> simp only [h, if_true, if_false] <;>
    first
      | rfl
      | (cases kv.2 <;> rfl)

theorem foldl_applyStateKV_pair (l : List (String × Value)) :
    ∀ p : Blackboard × AgentResponse,
      l.foldl applyStateKV p = (l.foldl bbStateStep p.1, l.foldl finStateStep p.2) := by
  induction l with
  | nil => intro p; rfl
  | cons kv l ih =>
      intro p
      rw [List.foldl_cons, applyStateKV_pair, ih, List.foldl_cons, List.foldl_cons]

/-- Proof infrastructure: the Blackboard component of `applyResponse`. -/
def bbApply (bb : Blackboard) (e : Int × Nat × String × AgentResponse) : Blackboard :=
  let agent_id := e.2.2.1
  let resp := e.2.2.2
  let bb := resp.variable_updates.foldl (fun b kv => b.set_var kv.1 kv.2) bb
  let bb := resp.queue_pushes.foldl (fun b kv => b.push_queue_items kv.1 kv.2) bb
  let bb := resp.facts.foldl Blackboard.add_fact bb
  let bb := if resp.memory_updates ≠ [] then
              bb.update_memory agent_id resp.memory_updates
            else bb
  if resp.state_updates ≠ [] ∧ resp.variable_updates = [] then
    resp.state_updates.foldl bbStateStep bb
  else bb

/-- Proof infrastructure: the aggregate-response component of
`applyResponse`. -/
def finApply (fin : AgentResponse) (e : Int × Nat × String × AgentResponse) :
    AgentResponse :=
  let resp := e.2.2.2
  let fin := { fin with insights := fin.insights ++ resp.insights }
  let fin := { fin with data := resp.data.foldl mergeDataKV fin.data }
  let vu := resp.variable_updates.foldl (fun acc kv => setKey acc kv.1 kv.2)
    fin.variable_updates
  let fin := { fin with variable_updates := vu }
  let qp := resp.queue_pushes.foldl (fun acc kv => setKey acc kv.1 (getD acc kv.1 [] ++ kv.2))
    fin.queue_pushes
  let fin := { fin with queue_pushes := qp }
  let fin := { fin with facts := fin.facts ++ resp.facts }
  let fin := if resp.memory_updates ≠ [] then
               { fin with memory_updates := dictUpdate fin.memory_updates resp.memory_updates }
             else fin
  if resp.state_updates ≠ [] ∧ resp.variable_updates = [] then
    resp.state_updates.foldl finStateStep fin
  else fin

theorem applyResponse_split (bb : Blackboard) (fin : AgentResponse)
    (e : Int × Nat × String × AgentResponse) :
    applyResponse (bb, fin) e = (bbApply bb e, finApply fin e) := by
  obtain ⟨p, i, lab, resp⟩ := e
  by_cases hc : resp.state_updates ≠ [] ∧ resp.variable_updates = []
  · simp only [applyResponse, bbApply, finApply, if_pos hc, foldl_applyStateKV_pair]
  · simp only [applyResponse, bbApply, finApply, if_neg hc]

theorem foldApply_split (entries : List (Int × Nat × String × AgentResponse)) :
    ∀ (bb : Blackboard) (fin : AgentResponse),
      entries.foldl applyResponse (bb, fin) =
        (entries.foldl bbApply bb, entries.foldl finApply fin) := by
  induction entries with
  | nil => intro bb fin; rfl
  | cons e l ih =>
      intro bb fin
      rw [List.foldl_cons, applyResponse_split, ih, List.foldl_cons, List.foldl_cons]

theorem bbApply_inert (bb : Blackboard) (p : Int) (i : Nat) (lab : String)
    (cfg : AgentConfig) : bbApply bb (p, i, lab, error_response cfg) = bb := rfl

theorem foldl_finStateStep_insights (l : List (String × Value)) :
    ∀ r : AgentResponse, (l.foldl finStateStep r).insights = r.insights := by
  induction l with
  | nil => intro r; rfl
  | cons kv l ih =>
      intro r
      rw [List.foldl_cons, ih]
      unfold finStateStep
      by_cases h : kv.1.startsWith "memory_" <;> simp only [finStateStep, h] <;>
        first
          | rfl
          | (cases kv.2 <;> rfl)

theorem finApply_insights (fin : AgentResponse)
    (e : Int × Nat × String × AgentResponse) :
    (finApply fin e).insights = fin.insights ++ e.2.2.2.insights := by
  obtain ⟨p, i, lab, resp⟩ := e
  simp only [finApply]
  by_cases hst : resp.state_updates ≠ [] ∧ resp.variable_updates = [] <;>
    by_cases hm : resp.memory_updates = [] <;>
    simp [hst, hm, foldl_finStateStep_insights]

theorem foldl_finApply_insights (entries : List (Int × Nat × String × AgentResponse)) :
    ∀ fin : AgentResponse, (entries.foldl finApply fin).insights =
      fin.insights ++ (entries.map (fun e => e.2.2.2.insights)).flatten := by
  induction entries with
  | nil => intro fin; simp
  | cons e l ih =>
      intro fin
      rw [List.foldl_cons, ih, finApply_insights]
      simp

/-- The aggregate response with its insights erased — the part of the
aggregate that is not the insight stream. -/
def finCore (r : AgentResponse) : AgentResponse := { r with insights := [] }

theorem finCore_set_insights (r : AgentResponse) (l : List AgentInsight) :
    finCore { r with insights := l } = finCore r := rfl

theorem finStateStep_core_comm (r : AgentResponse) (kv : String × Value) :
    finCore (finStateStep r kv) = finStateStep (finCore r) kv := by
  unfold finStateStep
  split
  · cases kv.2 <;> rfl
  · rfl

theorem foldl_finStateStep_core_comm (l : List (String × Value)) :
    ∀ r : AgentResponse,
      finCore (l.foldl finStateStep r) = l.foldl finStateStep (finCore r) := by
  induction l with
  | nil => intro r; rfl
  | cons kv l ih =>
      intro r
      rw [List.foldl_cons, ih, finStateStep_core_comm, List.foldl_cons]

theorem finApply_core_congr (fin fin2 : AgentResponse)
    (e : Int × Nat × String × AgentResponse) (h : finCore fin = finCore fin2) :
    finCore (finApply fin e) = finCore (finApply fin2 e) := by
  obtain ⟨p, i, lab, resp⟩ := e
  cases fin with
  | mk i1 su d ev vu qp fa mu =>
      cases fin2 with
      | mk i2 su2 d2 ev2 vu2 qp2 fa2 mu2 =>
          simp only [finCore, AgentResponse.mk.injEq] at h
          obtain ⟨-, hsu, hd, hev, hvu, hqp, hfa, hmu⟩ := h
          subst hsu hd hev hvu hqp hfa hmu
          simp only [finApply]
          by_cases hst : resp.state_updates ≠ [] ∧ resp.variable_updates = []
          · rw [if_pos hst, if_pos hst, foldl_finStateStep_core_comm,
              foldl_finStateStep_core_comm]
            by_cases hm : resp.memory_updates ≠ []
            · rw [if_pos hm, if_pos hm]; simp only [finCore]
            · rw [if_neg hm, if_neg hm]; simp only [finCore]
          · rw [if_neg hst, if_neg hst]
            by_cases hm : resp.memory_updates ≠ []
            · rw [if_pos hm, if_pos hm]; simp only [finCore]
            · rw [if_neg hm, if_neg hm]; simp only [finCore]

theorem foldl_finApply_core (entries : List (Int × Nat × String × AgentResponse)) :
    ∀ fin fin2 : AgentResponse, finCore fin = finCore fin2 →
      finCore (entries.foldl finApply fin) = finCore (entries.foldl finApply fin2) := by
  induction entries with
  | nil => intro fin fin2 h; exact h
  | cons e l ih =>
      intro fin fin2 h
      rw [List.foldl_cons, List.foldl_cons]
      exact ih _ _ (finApply_core_congr _ _ _ h)

theorem finApply_inert (fin : AgentResponse) (p : Int) (i : Nat) (lab : String)
    (cfg : AgentConfig) :
    finApply fin (p, i, lab, error_response cfg) =
      { fin with insights := fin.insights ++ (error_response cfg).insights } := by
  simp [finApply, error_response]

/-! ## Concrete fixtures used by the claim witnesses and counterexamples -/

open AgentEngine

/-- An insight as the mock agents of the fixtures produce it. -/
def mkInsight (aid : String) (txt : String) : AgentInsight :=
  { agent_id := aid, agent_name := aid, type := .suggestion, content := txt,
    confidence := 1, expiry := 15, action_label := Option.none, metadata := [] }

/-- A fact carrying only the fields the dedup rule inspects. -/
def mkFact (t : String) (k : Option String) (c : ℚ) : Fact :=
  { type := t, key := k, value := .int 0, confidence := c, source_agent := "a",
    timestamp := 0 }

/-- A minimal context for one-turn runs. -/
def ctxA : AgentContext := { session_id := "s", turn_count := 1 }

/-- A condition that evaluates false on the fixtures (no variable `nope`). -/
def condFalse : Value :=
  .dict [("mode", .str "all"),
         ("rules", .list [.dict [("var", .str "nope"), ("op", .str "exists")]])]

/-- A keyword-only agent, in cooldown, with failing conditions — the S6
force-bypass scenario. -/
def kwAgent : BaseAgent :=
  { config := { name := "kw", id := "kw", cooldown := 9999,
                trigger_types := [.keyword], trigger_conditions := condFalse },
    last_run_time := 99,
    evaluate := fun _ => .ok (some { insights := [mkInsight "kw" "ran"] }) }

/-- An agent that does accept `force` but has failing conditions. -/
def forceCondAgent : BaseAgent :=
  { config := { name := "fc", id := "fc", trigger_types := [.keyword, .force],
                trigger_conditions := condFalse },
    evaluate := fun _ => .ok (some { insights := [mkInsight "fc" "ran"] }) }

/-- An agent that accepts `force` but is inside its cooldown window. -/
def forceCoolAgent : BaseAgent :=
  { config := { name := "fo", id := "fo", cooldown := 9999,
                trigger_types := [.keyword, .force] },
    last_run_time := 99,
    evaluate := fun _ => .ok (some { insights := [mkInsight "fo" "ran"] }) }

/-- A slow agent (base cooldown 60) for the `cooldown_modifier` scenario. -/
def slowAgent : BaseAgent :=
  { config := { name := "slow", id := "slow", cooldown := 60 },
    last_run_time := 94,
    evaluate := fun _ => .ok (some { insights := [mkInsight "slow" "ran"] }) }

/-- The context carrying a `-55` cooldown modifier for `slowAgent`. -/
def ctxOverride : AgentContext :=
  { session_id := "s", turn_count := 2,
    agent_config_overrides := [("slow", { cooldown_modifier := some (-55) })] }

/-- A Phase-1 agent that emits a `question` event and nothing else. -/
def emitterAgent : BaseAgent :=
  { config := { name := "emitter", id := "emitter", trigger_types := [.turn_based] },
    evaluate := fun _ => .ok (some { events :=
      [{ name := "question", payload := [], source_agent := "emitter",
         timestamp := 1, id := Option.none }] }) }

/-- A subscriber to `question` whose only trigger type is `event` — the S3
scenario with "no other trigger". -/
def subOnlyAgent : BaseAgent :=
  { config := { name := "subag", id := "subag", trigger_types := [.event],
                subscribed_events := ["question"] },
    evaluate := fun _ => .ok (some { insights := [mkInsight "subag" "phase2"] }) }

/-- Priority-10 agent writing variable `v` without emitting any insight. -/
def hiQuiet : BaseAgent :=
  { config := { name := "hi2", id := "hi2", priority := 10 },
    evaluate := fun _ => .ok (some { variable_updates := [("v", .str "hi")] }) }

/-- Priority-1 agent (registered after `hiQuiet`) writing `v`, no insight. -/
def loQuiet : BaseAgent :=
  { config := { name := "lo2", id := "lo2", priority := 1 },
    evaluate := fun _ => .ok (some { variable_updates := [("v", .str "lo")] }) }

/-- A well-behaved agent writing `ok = yes` with an insight. -/
def okAgent : BaseAgent :=
  { config := { name := "okag", id := "okag" },
    evaluate := fun _ => .ok (some { insights := [mkInsight "okag" "fine"],
                                     variable_updates := [("ok", .str "yes")] }) }

/-- An agent whose `evaluate` raises. -/
def badAgent : BaseAgent :=
  { config := { name := "bad", id := "bad", priority := 5 },
    evaluate := fun _ => .error () }

/-- An agent returning a response with memory updates but no insights. -/
def quietMemAgent : BaseAgent :=
  { config := { name := "memag", id := "memag", priority := 7 },
    evaluate := fun _ => .ok (some { memory_updates := [("k", .int 1)] }) }

/-- A Phase-2 context as `_run_phase` builds it for the `subOnlyAgent`
scenario: the turn's own trigger type, phase 2. -/
def phase2Ctx : AgentContext :=
  { session_id := "s", trigger_type := .turn_based, phase := 2, turn_count := 1 }

/-- A fact like `mkFact` but with a distinguishing value. -/
def mkFactV (t : String) (k : Option String) (c : ℚ) (v : Value) : Fact :=
  { type := t, key := k, value := v, confidence := c, source_agent := "a",
    timestamp := 0 }

/-- The four-fact insertion sequence that breaks null-key uniqueness: an
unkeyed fact, a keyed fact of the same type, then two more unkeyed facts of
the type, each of which replaces the first fact of the type — the second of
them the keyed one — leaving two unkeyed facts of type `T`. -/
def c7seq : List Fact :=
  [mkFactV "T" Option.none 1 (.int 1), mkFactV "T" (some "a") 1 (.int 2),
   mkFactV "T" Option.none 1 (.int 3), mkFactV "T" Option.none 1 (.int 4)]

/-! ## Claim theorems -/

/-- C1: the code has no `force` bypass anywhere.  At the S6 scenario (an
agent with `trigger_types = [keyword]`, a 9999-second cooldown that has not
elapsed, and failing `trigger_conditions`), a `force` turn (1) skips the
agent at selection with `trigger_type_mismatch`, (2) would still skip on
conditions even if `force` were among its trigger types, (3) would still
skip on cooldown inside `BaseAgent.process` even when selected, and (4) the
full `process_turn` runs nothing; the allow-list check (5) does apply, as
the claim states. -/
theorem c1_force_bypass_missing :
    is_eligible kwAgent {} Option.none .force (buildMeta 1 .force 1 "s") =
      .ok (false, "trigger_type_mismatch") ∧
    is_eligible forceCondAgent {} Option.none .force (buildMeta 1 .force 1 "s") =
      .ok (false, "conditions_not_met") ∧
    (forceCoolAgent.process { ctxA with trigger_type := .force } 100).1 = Option.none ∧
    (process_turn [kwAgent] 2 ctxA Option.none .force [] 100).map
      (fun r => r.response.insights) = .ok [] ∧
    is_eligible kwAgent {} (some ["other"]) .force (buildMeta 1 .force 1 "s") =
      .ok (false, "not_in_allow_list") := by
  exact ⟨rfl, rfl, rfl, rfl, rfl⟩

/-- C2 counterexample: two agents with distinct priorities (10 before 1 in
registration order) both write variable `v` and succeed, but return no
insights, so the merge cannot identify them: the final value is the
later-registered priority-1 agent's `"lo"`, not the priority-10 agent's
`"hi"`. -/
theorem c2_counterexample :
    (process_turn [hiQuiet, loQuiet] 2 ctxA Option.none .turn_based [] 100).map
      (fun r => (r.blackboard.get_var "v", lookupV r.response.variable_updates "v")) =
      .ok (.str "lo", some (.str "lo")) ∧
    hiQuiet.config.priority = 10 ∧ loQuiet.config.priority = 1 ∧
    Value.str "lo" ≠ Value.str "hi" := by
  exact ⟨rfl, rfl, rfl, by decide⟩

/-- The sort key `_merge_responses` assigns a response: the priority and
registration index of the agent named by its first insight (`(0, 0)` when
there is none). -/
def mergeKey (agents : List BaseAgent) (r : AgentResponse) : Int × Nat :=
  ((decorate agents r).1, (decorate agents r).2.1)

theorem decorate_resp (agents : List BaseAgent) (r : AgentResponse) :
    (decorate agents r).2.2.2 = r := rfl

/-- C2 amended: if every merged response is identified (its first insight
names its agent) and `rstar` carries the strictly largest
`(priority, registration index)` key, then after the merge both the live
Blackboard and the aggregate response hold `rstar`'s write of `v`; and a
response whose first insight names a registered agent is keyed by exactly
that agent's configured priority and registration index. -/
theorem c2_priority_merge (agents : List BaseAgent) (rs : List AgentResponse)
    (bb : Blackboard) (fin0 : AgentResponse) (v : String) (w : Value)
    (rstar : AgentResponse)
    (hmem : rstar ∈ rs)
    (hnodup : (rstar.variable_updates.map Prod.fst).Nodup)
    (hw : lookupV rstar.variable_updates v = some w)
    (_hall : ∀ r ∈ rs, hasKey r.variable_updates v = true)
    (hmax : ∀ r ∈ rs, r ≠ rstar →
      (mergeKey agents r).1 < (mergeKey agents rstar).1 ∨
      ((mergeKey agents r).1 = (mergeKey agents rstar).1 ∧
       (mergeKey agents r).2 < (mergeKey agents rstar).2)) :
    (merge_responses agents rs bb fin0).1.get_var v = w ∧
    lookupV (merge_responses agents rs bb fin0).2.variable_updates v = some w ∧
    (∀ (resp : AgentResponse) (ins : AgentInsight) (rest : List AgentInsight)
       (a : BaseAgent), resp.insights = ins :: rest →
       agents.find? (fun ag => ag.config.id = ins.agent_id) = some a →
       mergeKey agents resp = (a.config.priority, agentIndex agents ins.agent_id)) := by
  have hkey : ∀ (resp : AgentResponse) (ins : AgentInsight) (rest : List AgentInsight)
      (a : BaseAgent), resp.insights = ins :: rest →
      agents.find? (fun ag => ag.config.id = ins.agent_id) = some a →
      mergeKey agents resp = (a.config.priority, agentIndex agents ins.agent_id) := by
    intro resp ins rest a hins hfind
    simp [mergeKey, decorate, hins, hfind]
  -- the decorated entry of rstar is the last element of the stable sort
  have hlastb : lastBinding rstar.variable_updates v = some w := by
    unfold lastBinding
    rw [find?_reverse_of_nodup_keys v rstar.variable_updates hnodup]
    unfold lookupV at hw
    exact hw
  unfold merge_responses
  set dec := rs.map (decorate agents) with hdec
  set sorted := List.insertionSort mergeLe dec with hsorted
  have hsort : sorted.Sorted mergeLe := List.sorted_insertionSort mergeLe dec
  have hperm : sorted.Perm dec := List.perm_insertionSort mergeLe dec
  have hmemd : decorate agents rstar ∈ dec := List.mem_map_of_mem _ hmem
  have hmems : decorate agents rstar ∈ sorted := hperm.mem_iff.mpr hmemd
  have hne : sorted ≠ [] := List.ne_nil_of_mem hmems
  have hlast_eq : sorted.getLast hne = decorate agents rstar := by
    rcases sorted_rel_getLast hsort hne _ hmems with heq | hrel
    · exact heq.symm
    · -- the last element comes from some response; if it were a different
      -- one, its key would be strictly below rstar's, contradicting the
      -- sortedness relation just obtained
      have hLmem : sorted.getLast hne ∈ dec := hperm.mem_iff.mp (List.getLast_mem hne)
      obtain ⟨rL, hrLmem, hrLdec⟩ := List.mem_map.mp hLmem
      by_cases hrL : rL = rstar
      · rw [← hrLdec, hrL]
      · exfalso
        have hlt := hmax rL hrLmem hrL
        have hrel2 : mergeLe (decorate agents rstar) (decorate agents rL) := by
          rw [hrLdec]; exact hrel
        unfold mergeLe at hrel2
        unfold mergeKey at hlt
        rcases hrel2 with h | h <;> rcases hlt with h2 | h2 <;> omega
  have hsplit : sorted.dropLast ++ [decorate agents rstar] = sorted := by
    rw [← hlast_eq]
    exact List.dropLast_append_getLast hne
  have hfold := foldApply_getVar_last sorted.dropLast (decorate agents rstar)
    (bb, fin0) v w (by rw [decorate_resp]; exact hlastb)
  rw [hsplit] at hfold
  exact ⟨hfold.1, hfold.2, hkey⟩

/-- C2 witness: two identified responses with distinct priorities (1 and
10); the priority-10 agent's write wins in both the Blackboard and the
aggregate, and its key is its configured `(priority, index)`. -/
theorem c2_priority_merge_witness :
    (merge_responses [loQuiet, hiQuiet]
      [{ insights := [mkInsight "lo2" "a"], variable_updates := [("v", .str "lo")] },
       { insights := [mkInsight "hi2" "b"], variable_updates := [("v", .str "hi")] }]
      {} {}).1.get_var "v" = .str "hi" ∧
    lookupV (merge_responses [loQuiet, hiQuiet]
      [{ insights := [mkInsight "lo2" "a"], variable_updates := [("v", .str "lo")] },
       { insights := [mkInsight "hi2" "b"], variable_updates := [("v", .str "hi")] }]
      {} {}).2.variable_updates "v" = some (.str "hi") := by
  have h := c2_priority_merge [loQuiet, hiQuiet]
    [{ insights := [mkInsight "lo2" "a"], variable_updates := [("v", .str "lo")] },
     { insights := [mkInsight "hi2" "b"], variable_updates := [("v", .str "hi")] }]
    {} {} "v" (.str "hi")
    { insights := [mkInsight "hi2" "b"], variable_updates := [("v", .str "hi")] }
    (by decide) (by decide) (by decide) (by decide) (by decide)
  exact ⟨h.1, h.2.1⟩

/-- C3 counterexample: when an agent's `evaluate` raises, its lifecycle
returns an error-insight response which IS merged — the aggregate response
contains an `error`-typed insight carrying the failing agent's id,
contradicting the claim that none of its insights appear. -/
theorem c3_counterexample :
    (process_turn [okAgent, badAgent] 2 ctxA Option.none .turn_based [] 100).map
      (fun r => (r.response.insights.map (fun i => (i.agent_id, i.type)),
                 r.blackboard.get_var "ok")) =
      .ok ([("okag", .suggestion), ("bad", .error)], .str "yes") := by
  exact rfl

/-- C4: an agent subscribed to `question` whose only trigger type is
`event` (S3's "no other trigger") passes Phase-2 selection, but
`BaseAgent.process` re-checks the turn's trigger type and returns `None`, so
the subscriber contributes nothing: the aggregate of the full turn has no
insights even though the event was emitted and recorded. -/
theorem c4_phase2_typecheck_blocks_subscriber :
    is_eligible_for_phase2 subOnlyAgent {} Option.none (buildMeta 1 .turn_based 2 "s") =
      .ok true ∧
    (subOnlyAgent.process phase2Ctx 100).1 = Option.none ∧
    (process_turn [emitterAgent, subOnlyAgent] 2 ctxA Option.none .turn_based [] 100).map
      (fun r => (r.response.insights, r.response.events.map (·.name))) =
      .ok ([], ["question"]) := by
  exact ⟨rfl, rfl, rfl⟩

/-- C5: `agent_config_overrides` never reach the cooldown check.  With base
cooldown 60, a matching override of `-55`, and 6 seconds elapsed, the claim
says the agent runs (effective cooldown `max(5, 60 - 55) = 5 ≤ 6`), but (1)
`BaseAgent.process` compares against the raw `config.cooldown` and skips,
(2) the whole turn produces nothing, and (3) `_run_phase` does not even copy
the overrides into the context agents receive. -/
theorem c5_cooldown_modifier_ignored :
    (slowAgent.process ctxOverride 100).1 = Option.none ∧
    (process_turn [slowAgent] 2 ctxOverride Option.none .turn_based [] 100).map
      (fun r => r.response.insights) = .ok [] ∧
    (phaseContext ctxOverride [] {} 1).agent_config_overrides = [] ∧
    lookupV ctxOverride.agent_config_overrides "slow" =
      some { cooldown_modifier := some (-55) } := by
  exact ⟨rfl, rfl, rfl, rfl⟩

/-- The claim's candidate notion: with a null key, any existing fact of the
same type; with a key, the fact matching `(type, key)` exactly.  (The code
resolves "any" to the first such fact, via `find?`.) -/
def candidateB (f c : Fact) : Bool :=
  match f.key with
  | Option.none => c.type = f.type
  | some _ => c.type = f.type ∧ c.key = f.key

/-- C6: `add_fact` dedup.  If no candidate exists, the fact is appended; if
the first candidate `c` exists, the new fact replaces it (the candidate is
removed and the new fact appended at the end) iff its confidence is at
least `c`'s — so an equal-confidence tie goes to the newer fact — and
otherwise the call leaves the Blackboard unchanged. -/
theorem c6_add_fact_dedup (bb : Blackboard) (f : Fact) :
    (bb.facts.find? (candidateB f) = Option.none →
        (bb.add_fact f).facts = bb.facts ++ [f]) ∧
    (∀ c, bb.facts.find? (candidateB f) = some c →
      ((c.confidence ≤ f.confidence →
          (bb.add_fact f).facts = bb.facts.erase c ++ [f]) ∧
       (f.confidence < c.confidence → bb.add_fact f = bb))) := by
  constructor
  · intro hnone
    cases hk : f.key with
    | none =>
        have hp : candidateB f = fun c : Fact => decide (c.type = f.type) := by
          funext c
          simp [candidateB, hk]
        rw [hp] at hnone
        simp only [Blackboard.add_fact, hk, hnone]
    | some k =>
        have hp : candidateB f =
            fun c : Fact => decide (c.type = f.type ∧ c.key = some k) := by
          funext c
          simp [candidateB, hk]
        rw [hp] at hnone
        simp only [Blackboard.add_fact, hk, hnone]
  · intro c hc
    cases hk : f.key with
    | none =>
        have hp : candidateB f = fun c : Fact => decide (c.type = f.type) := by
          funext c
          simp [candidateB, hk]
        rw [hp] at hc
        constructor
        · intro hconf
          simp only [Blackboard.add_fact, hk, hc, if_pos hconf]
        · intro hconf
          simp only [Blackboard.add_fact, hk, hc, if_neg (not_le.mpr hconf)]
    | some k =>
        have hp : candidateB f =
            fun c : Fact => decide (c.type = f.type ∧ c.key = some k) := by
          funext c
          simp [candidateB, hk]
        rw [hp] at hc
        constructor
        · intro hconf
          simp only [Blackboard.add_fact, hk, hc, if_pos hconf]
        · intro hconf
          simp only [Blackboard.add_fact, hk, hc, if_neg (not_le.mpr hconf)]

/-- C6 witness: a Blackboard with one `budget` fact; an equal-confidence
unkeyed re-add replaces it (newer wins), a lower-confidence add is a no-op,
and a fresh type is appended. -/
theorem c6_add_fact_dedup_witness :
    (((Blackboard.mk [] [] [] [mkFactV "budget" Option.none 1 (.int 50)] []).add_fact
        (mkFactV "budget" Option.none 1 (.int 75))).facts =
      [mkFactV "budget" Option.none 1 (.int 75)]) ∧
    (((Blackboard.mk [] [] [] [mkFactV "budget" Option.none 1 (.int 50)] []).add_fact
        (mkFactV "budget" Option.none 0 (.int 99))) =
      Blackboard.mk [] [] [] [mkFactV "budget" Option.none 1 (.int 50)] []) ∧
    (((Blackboard.mk [] [] [] [mkFactV "budget" Option.none 1 (.int 50)] []).add_fact
        (mkFactV "timeline" Option.none 1 (.int 7))).facts =
      [mkFactV "budget" Option.none 1 (.int 50), mkFactV "timeline" Option.none 1 (.int 7)]) := by
  refine ⟨?_, ?_, ?_⟩
  · have h := (c6_add_fact_dedup
      (Blackboard.mk [] [] [] [mkFactV "budget" Option.none 1 (.int 50)] [])
      (mkFactV "budget" Option.none 1 (.int 75))).2
      (mkFactV "budget" Option.none 1 (.int 50)) (by decide)
    exact (h.1 (by decide)).trans (by decide)
  · have h := (c6_add_fact_dedup
      (Blackboard.mk [] [] [] [mkFactV "budget" Option.none 1 (.int 50)] [])
      (mkFactV "budget" Option.none 0 (.int 99))).2
      (mkFactV "budget" Option.none 1 (.int 50)) (by decide)
    exact h.2 (by decide)
  · have h := (c6_add_fact_dedup
      (Blackboard.mk [] [] [] [mkFactV "budget" Option.none 1 (.int 50)] [])
      (mkFactV "timeline" Option.none 1 (.int 7))).1 (by decide)
    exact h

/-- C7 counterexample: starting from an empty Blackboard, the four-step
`add_fact` sequence `c7seq` leaves two distinct facts that both have a null
key and the same type `T` — the first-match dedup can erase the keyed fact
of the type while an unkeyed one survives. -/
theorem c7_counterexample :
    (c7seq.foldl Blackboard.add_fact {}).facts =
      [mkFactV "T" Option.none 1 (.int 3), mkFactV "T" Option.none 1 (.int 4)] ∧
    mkFactV "T" Option.none 1 (.int 3) ≠ mkFactV "T" Option.none 1 (.int 4) ∧
    (mkFactV "T" Option.none 1 (.int 3)).key = Option.none ∧
    (mkFactV "T" Option.none 1 (.int 4)).key = Option.none ∧
    (mkFactV "T" Option.none 1 (.int 3)).type = (mkFactV "T" Option.none 1 (.int 4)).type := by
  exact ⟨rfl, by decide, rfl, rfl, rfl⟩

/-- The keyed half of invariant I2: any two facts at distinct positions
that both carry non-null keys and share a type have distinct keys. -/
def KeyedUnique (facts : List Fact) : Prop :=
  facts.Pairwise (fun f g =>
    f.key ≠ Option.none → g.key ≠ Option.none → f.type = g.type → f.key ≠ g.key)

theorem add_fact_keyed_unique (bb : Blackboard) (f : Fact)
    (h : KeyedUnique bb.facts) : KeyedUnique (bb.add_fact f).facts := by
  cases hk : f.key with
  | none =>
      -- the added fact is unkeyed: every new pair is vacuous
      simp only [Blackboard.add_fact, hk]
      cases hfind : bb.facts.find? (fun c => decide (c.type = f.type)) with
      | none =>
          dsimp only
          refine List.pairwise_append.mpr ⟨h, List.pairwise_singleton _ _, ?_⟩
          intro a _ b hb
          simp only [List.mem_singleton] at hb
          subst hb
          intro _ hbk
          exact absurd hk (by simpa using hbk)
      | some c =>
          dsimp only
          by_cases hconf : c.confidence ≤ f.confidence
          · rw [if_pos hconf]
            refine List.pairwise_append.mpr
              ⟨h.sublist (List.erase_sublist _ _), List.pairwise_singleton _ _, ?_⟩
            intro a _ b hb
            simp only [List.mem_singleton] at hb
            subst hb
            intro _ hbk
            exact absurd hk (by simpa using hbk)
          · rw [if_neg hconf]
            exact h
  | some k =>
      simp only [Blackboard.add_fact, hk]
      cases hfind : bb.facts.find? (fun c => decide (c.type = f.type ∧ c.key = some k)) with
      | none =>
          dsimp only
          refine List.pairwise_append.mpr ⟨h, List.pairwise_singleton _ _, ?_⟩
          intro a ha b hb
          simp only [List.mem_singleton] at hb
          subst hb
          intro hak _ hty hkey
          have hnot := List.find?_eq_none.mp hfind a ha
          simp only [decide_eq_true_eq, not_and] at hnot
          exact hnot hty (by rw [← hk]; exact hkey)
      | some c =>
          dsimp only
          have hcmem : c ∈ bb.facts := List.mem_of_find?_eq_some hfind
          have hcpred : c.type = f.type ∧ c.key = some k := by
            have := List.find?_some hfind
            simpa using this
          by_cases hconf : c.confidence ≤ f.confidence
          · rw [if_pos hconf]
            refine List.pairwise_append.mpr
              ⟨h.sublist (List.erase_sublist _ _), List.pairwise_singleton _ _, ?_⟩
            intro a ha b hb
            simp only [List.mem_singleton] at hb
            subst hb
            intro hak _ hty hkey
            -- a sits in the erased list yet matches (type, key): contradict
            -- KeyedUnique of the original list through the erase split
            obtain ⟨l₁, l₂, hcnot, hsplit, herase⟩ := List.exists_erase_eq hcmem
            rw [herase] at ha
            rw [hsplit] at h
            have hpw := List.pairwise_append.mp (by simpa [KeyedUnique] using h)
            have hakc : a.key = c.key := by rw [hkey, hk, hcpred.2]
            have hck : c.key ≠ Option.none := by rw [hcpred.2]; simp
            have htyc : a.type = c.type := by rw [hty, hcpred.1]
            rcases List.mem_append.mp ha with ha1 | ha2
            · -- a before c: the pairwise relation a→c applies
              exact hpw.2.2 a ha1 c (List.mem_cons_self _ _) hak hck htyc hakc
            · -- a after c: the pairwise relation c→a applies
              exact (List.pairwise_cons.mp hpw.2.1).1 a ha2 hck hak htyc.symm hakc.symm
          · rw [if_neg hconf]
            exact h

/-- C7 amended: after every sequence of `add_fact` calls starting from an
empty Blackboard, any two distinct facts with non-null keys and the same
type have different keys (the keyed half of invariant I2; the null-key half
is refuted by `c7seq`). -/
theorem c7_keyed_unique_invariant (adds : List Fact) :
    KeyedUnique ((adds.foldl Blackboard.add_fact {}).facts) := by
  suffices h : ∀ (l : List Fact) (bb : Blackboard), KeyedUnique bb.facts →
      KeyedUnique ((l.foldl Blackboard.add_fact bb).facts) by
    exact h adds {} (List.Pairwise.nil)
  intro l
  induction l with
  | nil => exact fun bb h => h
  | cons x xs ih =>
      intro bb h
      exact ih (bb.add_fact x) (add_fact_keyed_unique bb x h)

/-- C8 counterexample: `evaluate` itself has no exception barrier — on the
conditions value `{"mode": "all", "rules": 5}` (a well-typed
`Optional[Dict]`) iterating the non-iterable `rules` raises, so `evaluate`
does not return a boolean. -/
theorem c8_counterexample :
    ConditionEvaluator.evaluate
      (.dict [("mode", .str "all"), ("rules", .int 5)]) {} [] "t" = .error () := by
  exact rfl

/-- A blackboard holding a string-valued `phase` variable. -/
def bbStr : Blackboard := { vars := [("phase", .str "negotiation")] }

/-- A rule asking `gt` between the string `phase` and the number 5 — a
type-mismatched comparison. -/
def mismatchConds : Value :=
  .dict [("mode", .str "all"),
         ("rules", .list [.dict [("var", .str "phase"), ("op", .str "gt"),
                                 ("value", .int 5)]])]

/-- A rule asking `gt` on a variable that is absent (`actual` is null). -/
def nullGtConds : Value :=
  .dict [("mode", .str "all"),
         ("rules", .list [.dict [("var", .str "missing"), ("op", .str "gt"),
                                 ("value", .int 5)]])]

/-- C8 amended: `evaluate` returns a boolean (never raises) whenever the
conditions value is falsy, or is a dict whose `rules` entry is a list (the
default when absent); and the per-rule barrier makes a type-mismatched
comparison (string `gt` number) and a null actual under `gt` evaluate to
`false` rather than raising. -/
theorem c8_total_on_wellformed :
    (∀ (conditions : Value) (bb : Blackboard) (meta : List (String × Value))
       (aid : String), conditions.truthy = false →
        ConditionEvaluator.evaluate conditions bb meta aid = .ok true) ∧
    (∀ (kvs : List (String × Value)) (rs : List Value) (bb : Blackboard)
       (meta : List (String × Value)) (aid : String),
        getD kvs "rules" (.list []) = .list rs →
        ∃ b, ConditionEvaluator.evaluate (.dict kvs) bb meta aid = .ok b) ∧
    ConditionEvaluator.evaluate mismatchConds bbStr [] "t" = .ok false ∧
    ConditionEvaluator.evaluate nullGtConds {} [] "t" = .ok false := by
  refine ⟨?_, ?_, rfl, rfl⟩
  · intro conditions bb meta aid h
    simp [ConditionEvaluator.evaluate, h]
  · intro kvs rs bb meta aid h
    by_cases ht : (Value.dict kvs).truthy
    · by_cases hrs : (Value.list rs).truthy
      · simp only [ConditionEvaluator.evaluate, h, ht, hrs, Bool.not_true,
          Bool.false_eq_true, if_false]
        split
        · exact ⟨_, rfl⟩
        · split
          · exact ⟨_, rfl⟩
          · exact ⟨_, rfl⟩
      · simp only [ConditionEvaluator.evaluate, h, ht, hrs, Bool.not_true,
          Bool.not_false, Bool.false_eq_true, if_false, if_true]
        exact ⟨_, rfl⟩
    · simp only [ConditionEvaluator.evaluate, ht, Bool.not_false, if_true]
      exact ⟨_, rfl⟩

/-- C8 witness: the totality statement applied at `None` conditions and at
a concrete well-formed dict. -/
theorem c8_total_on_wellformed_witness :
    ConditionEvaluator.evaluate .none bbStr [] "t" = .ok true ∧
    ∃ b, ConditionEvaluator.evaluate
      (.dict [("mode", .str "all"),
              ("rules", .list [.dict [("var", .str "phase"), ("op", .str "eq"),
                                      ("value", .str "negotiation")]])])
      bbStr [] "t" = .ok b := by
  exact ⟨c8_total_on_wellformed.1 .none bbStr [] "t" rfl,
         c8_total_on_wellformed.2.1 _ _ bbStr [] "t" rfl⟩

theorem exceptBind_ok {α β : Type} (a : α) (f : α → Except Unit β) :
    (Except.ok a >>= f) = f a := rfl

theorem exceptMap_ok {α β : Type} (a : α) (f : α → β) :
    (f <$> (Except.ok a : Except Unit α)) = Except.ok (f a) := rfl

theorem event_roundtrip (e : Event) :
    Blackboard.eventFromDict (Blackboard.eventToDict e) = .ok e := by
  cases e with
  | mk name payload source_agent timestamp id =>
      cases id <;>
        simp [Blackboard.eventToDict, Blackboard.eventFromDict, lookupV,
          Blackboard.decodeRat, Blackboard.decodeOptStr, List.find?,
          exceptBind_ok]

theorem fact_roundtrip (f : Fact) (h0 : 0 ≤ f.confidence)
    (h1 : f.confidence ≤ 1) :
    Blackboard.factFromDict (Blackboard.factToDict f) = .ok f := by
  cases f with
  | mk ty key value confidence source_agent timestamp =>
      simp only at h0 h1
      cases key <;>
        simp [Blackboard.factToDict, Blackboard.factFromDict, lookupV,
          Blackboard.decodeRat, Blackboard.decodeOptStr, List.find?,
          exceptBind_ok, h0, h1]

theorem mapM_roundtrip {α β : Type} (enc : α → β) (dec : β → Except Unit α)
    (l : List α) (h : ∀ x ∈ l, dec (enc x) = .ok x) :
    (l.map enc).mapM dec = .ok l := by
  induction l with
  | nil => rfl
  | cons x xs ih =>
      rw [List.map_cons, List.mapM_cons, h x (List.mem_cons_self _ _),
        ih (fun y hy => h y (List.mem_cons_of_mem _ hy))]
      rfl

theorem decodeQueues_roundtrip (qs : List (String × List Value)) :
    Blackboard.decodeQueues (.dict (qs.map (fun kv => (kv.1, Value.list kv.2)))) =
      .ok qs :=
  mapM_roundtrip (fun kv => (kv.1, Value.list kv.2))
    (fun kv => match kv.2 with
               | Value.list xs => Except.ok (kv.1, xs)
               | _ => Except.error ()) qs (fun _ _ => rfl)

theorem decodeMemory_roundtrip (ms : List (String × List (String × Value))) :
    Blackboard.decodeMemory (.dict (ms.map (fun kv => (kv.1, Value.dict kv.2)))) =
      .ok ms :=
  mapM_roundtrip (fun kv => (kv.1, Value.dict kv.2))
    (fun kv => match kv.2 with
               | Value.dict d => Except.ok (kv.1, d)
               | _ => Except.error ()) ms (fun _ _ => rfl)

/-- C9: `from_dict` inverts `to_dict` on every valid Blackboard — one whose
fact confidences lie in `[0, 1]`, as the pydantic constraint guarantees for
any Blackboard built through the API. -/
theorem c9_roundtrip (bb : Blackboard)
    (hconf : ∀ f ∈ bb.facts, 0 ≤ f.confidence ∧ f.confidence ≤ 1) :
    Blackboard.from_dict bb.to_dict = .ok bb := by
  have hev : (bb.events.map Blackboard.eventToDict).mapM Blackboard.eventFromDict
      = .ok bb.events :=
    mapM_roundtrip _ _ _ (fun e _ => event_roundtrip e)
  have hfa : (bb.facts.map Blackboard.factToDict).mapM Blackboard.factFromDict
      = .ok bb.facts :=
    mapM_roundtrip _ _ _ (fun f hf => fact_roundtrip f (hconf f hf).1 (hconf f hf).2)
  cases bb with
  | mk events vars queues facts memory =>
      simp only at hev hfa
      have hev2 : List.mapM.loop Blackboard.eventFromDict
          (events.map Blackboard.eventToDict) [] = Except.ok events := hev
      have hfa2 : List.mapM.loop Blackboard.factFromDict
          (facts.map Blackboard.factToDict) [] = Except.ok facts := hfa
      simp [Blackboard.to_dict, Blackboard.from_dict, getD, lookupV, List.find?,
        hev2, hfa2, decodeQueues_roundtrip, decodeMemory_roundtrip, exceptBind_ok]

/-- C9 witness: the round trip at a concrete populated Blackboard. -/
theorem c9_roundtrip_witness :
    Blackboard.from_dict (Blackboard.to_dict
      { events := [{ name := "e", payload := [("k", .int 1)], source_agent := "a",
                     timestamp := 1, id := some "x" }],
        vars := [("a", .list [.str "s"])],
        queues := [("q", [.int 1, .int 2])],
        facts := [mkFactV "T" (some "k") 1 (.int 3)],
        memory := [("ag", [("m", .bool true)])] }) =
    .ok { events := [{ name := "e", payload := [("k", .int 1)], source_agent := "a",
                       timestamp := 1, id := some "x" }],
          vars := [("a", .list [.str "s"])],
          queues := [("q", [.int 1, .int 2])],
          facts := [mkFactV "T" (some "k") 1 (.int 3)],
          memory := [("ag", [("m", .bool true)])] } := by
  exact c9_roundtrip _ (by intro f hf; simp only [List.mem_singleton] at hf; subst hf; constructor <;> norm_num [mkFactV])

/-- C10 counterexample: a successful response with no insights and nonempty
`memory_updates` does get its memory applied — under the placeholder id
`"unknown"` — so "its memory_updates are never applied to the Blackboard"
fails. -/
theorem c10_counterexample :
    (process_turn [quietMemAgent] 2 ctxA Option.none .turn_based [] 100).map
      (fun r => r.blackboard.memory) = .ok [("unknown", [("k", .int 1)])] ∧
    [("unknown", [("k", Value.int 1)])] ≠
      ([] : List (String × List (String × Value))) := by
  exact ⟨rfl, by decide⟩

/-- C3 amended: merging with an `error_response` present is exactly merging
without it, except that the error insight is spliced into the aggregate
insight stream.  The merged Blackboard is identical (no variables, queues,
facts, memory or events from the failed agent), the aggregate response
agrees on every non-insight field (`finCore`), and the insight streams
differ precisely by the error insight at its sort position. -/
theorem c3_atomic_failure (agents : List BaseAgent) (cfg : AgentConfig)
    (rs₁ rs₂ : List AgentResponse) (bb : Blackboard) (fin0 : AgentResponse) :
    (merge_responses agents (rs₁ ++ error_response cfg :: rs₂) bb fin0).1 =
      (merge_responses agents (rs₁ ++ rs₂) bb fin0).1 ∧
    finCore (merge_responses agents (rs₁ ++ error_response cfg :: rs₂) bb fin0).2 =
      finCore (merge_responses agents (rs₁ ++ rs₂) bb fin0).2 ∧
    ∃ pre post,
      (merge_responses agents (rs₁ ++ error_response cfg :: rs₂) bb fin0).2.insights =
        pre ++ (error_response cfg).insights ++ post ∧
      (merge_responses agents (rs₁ ++ rs₂) bb fin0).2.insights = pre ++ post := by
  obtain ⟨A, B, h1, h2⟩ :=
    insertionSort_extract mergeLe (decorate agents (error_response cfg))
      (rs₁.map (decorate agents)) (rs₂.map (decorate agents))
  have hfourth := decorate_resp agents (error_response cfg)
  have hinert_bb : ∀ b : Blackboard,
      bbApply b (decorate agents (error_response cfg)) = b := by
    intro b
    have h4 := hfourth
    rcases hde : decorate agents (error_response cfg) with ⟨p, i, lab, r⟩
    rw [hde] at h4
    cases h4
    exact bbApply_inert b p i lab cfg
  have hinert_fin : ∀ f : AgentResponse,
      finApply f (decorate agents (error_response cfg)) =
        { f with insights := f.insights ++ (error_response cfg).insights } := by
    intro f
    have h4 := hfourth
    rcases hde : decorate agents (error_response cfg) with ⟨p, i, lab, r⟩
    rw [hde] at h4
    cases h4
    exact finApply_inert f p i lab cfg
  have hw : merge_responses agents (rs₁ ++ error_response cfg :: rs₂) bb fin0 =
      ((A ++ decorate agents (error_response cfg) :: B).foldl bbApply bb,
       (A ++ decorate agents (error_response cfg) :: B).foldl finApply fin0) := by
    simp only [merge_responses, List.map_append, List.map_cons]
    rw [h1, foldApply_split]
  have hwo : merge_responses agents (rs₁ ++ rs₂) bb fin0 =
      ((A ++ B).foldl bbApply bb, (A ++ B).foldl finApply fin0) := by
    simp only [merge_responses, List.map_append]
    rw [h2, foldApply_split]
  refine ⟨?_, ?_, ?_⟩
  · rw [hw, hwo]
    simp only [List.foldl_append, List.foldl_cons]
    rw [hinert_bb]
  · rw [hw, hwo]
    simp only [List.foldl_append, List.foldl_cons]
    apply foldl_finApply_core
    rw [hinert_fin]
    exact finCore_set_insights _ _
  · refine ⟨fin0.insights ++ (A.map (fun e => e.2.2.2.insights)).flatten,
      (B.map (fun e => e.2.2.2.insights)).flatten, ?_, ?_⟩
    · rw [hw]
      simp only [foldl_finApply_insights, List.map_append, List.map_cons,
        List.flatten_append, List.flatten_cons, hfourth, List.append_assoc]
    · rw [hwo]
      simp only [foldl_finApply_insights, List.map_append,
        List.flatten_append, List.append_assoc]

theorem foldl_set_var_memory (kvs : List (String × Value)) :
    ∀ bb : Blackboard,
      (kvs.foldl (fun b kv => b.set_var kv.1 kv.2) bb).memory = bb.memory := by
  induction kvs with
  | nil => intro bb; rfl
  | cons kv l ih => intro bb; rw [List.foldl_cons, ih]; rfl

theorem foldl_push_queue_memory (kvs : List (String × List Value)) :
    ∀ bb : Blackboard,
      (kvs.foldl (fun b kv => b.push_queue_items kv.1 kv.2) bb).memory = bb.memory := by
  induction kvs with
  | nil => intro bb; rfl
  | cons kv l ih => intro bb; rw [List.foldl_cons, ih]; rfl

/-- A response carrying only memory updates, with no insights: the shape of
the C10 scenario after `BaseAgent.process`. -/
def quietMemResp : AgentResponse := { memory_updates := [("k", Value.int 1)] }

/-- C10 amended: a merged response with empty insights is decorated with
priority `0`, registration index `0` and the placeholder label `"unknown"`
(the emitting agent's configured priority is never consulted), and its
memory updates ARE applied to the Blackboard — under the `"unknown"`
namespace rather than the emitting agent's. -/
theorem c10_empty_insights_merge (agents : List BaseAgent) (resp : AgentResponse)
    (bb : Blackboard) (fin0 : AgentResponse)
    (hi : resp.insights = []) (hm : resp.memory_updates ≠ [])
    (hsu : resp.state_updates = []) :
    decorate agents resp = (0, 0, "unknown", resp) ∧
    (merge_responses agents [resp] bb fin0).1.memory =
      (bb.update_memory "unknown" resp.memory_updates).memory := by
  have hdec : decorate agents resp = (0, 0, "unknown", resp) := by
    simp [decorate, hi]
  refine ⟨hdec, ?_⟩
  have hsing : ∀ x : Int × Nat × String × AgentResponse,
      List.insertionSort mergeLe [x] = [x] := fun x => rfl
  have hmerge : merge_responses agents [resp] bb fin0 =
      (bbApply bb (0, 0, "unknown", resp), finApply fin0 (0, 0, "unknown", resp)) := by
    simp only [merge_responses, List.map_cons, List.map_nil, hdec, hsing]
    rw [List.foldl_cons, List.foldl_nil, applyResponse_split]
  rw [hmerge]
  simp only [bbApply]
  rw [if_neg (by simp [hsu])]
  rw [if_pos hm]
  simp only [Blackboard.update_memory]
  rw [foldl_add_fact_memory, foldl_push_queue_memory, foldl_set_var_memory]

/-- C10 amended, witnessed on a concrete memory-only response merged by an
empty registry into an empty Blackboard. -/
theorem c10_empty_insights_merge_witness :
    decorate [] quietMemResp = (0, 0, "unknown", quietMemResp) ∧
    (merge_responses [] [quietMemResp] {} {}).1.memory =
      (Blackboard.update_memory {} "unknown" quietMemResp.memory_updates).memory :=
  c10_empty_insights_merge [] quietMemResp {} {} rfl (by decide) rfl

end Xubb
